import Mathlib

/-!
VSIUnixStdioHandle: the per-handle state machine of `cpl_vsil_unix_stdio_64.cpp`

A shallow embedding of `gdal/port/cpl_vsil_unix_stdio_64.cpp`.

* The handle (`VSIUnixStdioHandle`) is a record of the C++ member variables other than
  the `FILE*`; the stream behind the `FILE*` is a value of an arbitrary type `σ`.
* The C library calls the handle makes (`fread`, `fwrite`, `fseek`, `ftell`, `feof`,
  `fflush`, `ftruncate`, `fclose`) are the fields of a record `Native σ`: every method
  of the handle is a function of that record, so a theorem stated for every `Native σ`
  holds for every outcome of every native call.
* Every native call is appended to a trace (`Env.trace`), and `errno` is threaded
  explicitly (`Env.errno`).
* `Stream`, with `hostStdio : Native Stream`, is a reference model of the host's buffered
  stream over a byte sequence (regular file or pipe); it is used where a claim speaks
  about file contents or about the native file position.

Machine integers: `vsi_l_offset` is an unsigned 64-bit integer, `GIntBig` a signed
64-bit integer, `int` a signed 32-bit integer and `size_t` an unsigned 64-bit
integer (LP64 Unix). They are modelled as `Nat`/`Int` with explicit reductions.
-/

namespace VSI

/-! ## Machine integers -/

/-- One byte of file data. -/
abbrev Byte := Nat

/-- Conversion of an integer to `vsi_l_offset` (unsigned 64-bit): reduction modulo 2^64. -/
def toU64 (z : Int) : Nat := (z % 2 ^ 64).toNat

/-- Conversion of an integer to `size_t` (unsigned 64-bit). -/
def toSizeT (z : Int) : Nat := (z % 2 ^ 64).toNat

/-- The cast `(GIntBig)x` of an unsigned 64-bit value: two's complement reading. -/
def toGIntBig (x : Nat) : Int :=
  if x % 2 ^ 64 < 2 ^ 63 then ((x % 2 ^ 64 : Nat) : Int) else ((x % 2 ^ 64 : Nat) : Int) - 2 ^ 64

/-- Result of a signed 64-bit operation, wrapped to the `GIntBig` range. -/
def wrapGIntBig (z : Int) : Int := toGIntBig (z % 2 ^ 64).toNat

/-- The cast `(int)x`: wrapped to the signed 32-bit range. -/
def toInt32 (z : Int) : Int :=
  if z % 2 ^ 32 < 2 ^ 31 then z % 2 ^ 32 else z % 2 ^ 32 - 2 ^ 32

/-- Value of `SEEK_SET`. -/
def SEEK_SET : Int := 0
/-- Value of `SEEK_CUR`. -/
def SEEK_CUR : Int := 1
/-- Value of `SEEK_END`. -/
def SEEK_END : Int := 2

/-! ## The native layer -/

/-- One call of the C library on the handle's `FILE*`, as recorded in the trace. -/
inductive Call where
  | fread (nSize nCount : Nat)
  | fwrite (nSize nCount : Nat)
  | fseek (nOffset : Nat) (nWhence : Int)
  | ftell
  | feof
  | fflush
  | ftruncate (nNewSize : Nat)
  | fclose
  deriving DecidableEq

/-- What a native call leaves behind: its return value, the stream and `errno`. -/
structure Ret (σ α : Type) where
  val : α
  st : σ
  errno : Int

/-- The C library as seen by the handle. Each call receives the stream and the current
`errno`. `fread` returns the element count and the bytes it stored in the buffer.
`vsiDebug` is the effect on `errno` of one `VSIDebugN(...)` statement (the identity in a
build without `VSI_DEBUG`), `cplDebug` that of `CPLDebug(...)`. -/
structure Native (σ : Type) where
  fread : σ → Int → Nat → Nat → Ret σ (Nat × List Byte)
  fwrite : σ → Int → List Byte → Nat → Nat → Ret σ Nat
  fseek : σ → Int → Nat → Int → Ret σ Int
  ftell : σ → Int → Ret σ Int
  feof : σ → Int
  fflush : σ → Int → Ret σ Int
  ftruncate : σ → Int → Nat → Ret σ Int
  fclose : σ → Int → Ret σ Int
  vsiDebug : Int → Int
  cplDebug : Int → Int

/-- The world outside the handle: the stream, `errno`, and the native calls made so far. -/
structure Env (σ : Type) where
  st : σ
  errno : Int
  trace : List Call

/-- A native call's return value together with the environment after it. -/
structure Res (σ α : Type) where
  val : α
  env : Env σ

namespace Env

variable {σ : Type}

/-- Call `fread(buf, nSize, nCount, fp)`. -/
def fread (N : Native σ) (e : Env σ) (nSize nCount : Nat) : Res σ (Nat × List Byte) :=
  { val := (N.fread e.st e.errno nSize nCount).val
    env := { st := (N.fread e.st e.errno nSize nCount).st
             errno := (N.fread e.st e.errno nSize nCount).errno
             trace := e.trace ++ [Call.fread nSize nCount] } }

/-- Call `fwrite(buf, nSize, nCount, fp)`. -/
def fwrite (N : Native σ) (e : Env σ) (buf : List Byte) (nSize nCount : Nat) : Res σ Nat :=
  { val := (N.fwrite e.st e.errno buf nSize nCount).val
    env := { st := (N.fwrite e.st e.errno buf nSize nCount).st
             errno := (N.fwrite e.st e.errno buf nSize nCount).errno
             trace := e.trace ++ [Call.fwrite nSize nCount] } }

/-- Call `VSI_FSEEK64(fp, nOffset, nWhence)`. -/
def fseek (N : Native σ) (e : Env σ) (nOffset : Nat) (nWhence : Int) : Res σ Int :=
  { val := (N.fseek e.st e.errno nOffset nWhence).val
    env := { st := (N.fseek e.st e.errno nOffset nWhence).st
             errno := (N.fseek e.st e.errno nOffset nWhence).errno
             trace := e.trace ++ [Call.fseek nOffset nWhence] } }

/-- Call `VSI_FTELL64(fp)`. -/
def ftell (N : Native σ) (e : Env σ) : Res σ Int :=
  { val := (N.ftell e.st e.errno).val
    env := { st := (N.ftell e.st e.errno).st
             errno := (N.ftell e.st e.errno).errno
             trace := e.trace ++ [Call.ftell] } }

/-- Call `feof(fp)`: it reads the end-of-file indicator and changes nothing. -/
def feof (N : Native σ) (e : Env σ) : Res σ Int :=
  { val := N.feof e.st
    env := { e with trace := e.trace ++ [Call.feof] } }

/-- Call `fflush(fp)`. -/
def fflush (N : Native σ) (e : Env σ) : Res σ Int :=
  { val := (N.fflush e.st e.errno).val
    env := { st := (N.fflush e.st e.errno).st
             errno := (N.fflush e.st e.errno).errno
             trace := e.trace ++ [Call.fflush] } }

/-- Call `VSI_FTRUNCATE64(fileno(fp), nNewSize)`. -/
def ftruncate (N : Native σ) (e : Env σ) (nNewSize : Nat) : Res σ Int :=
  { val := (N.ftruncate e.st e.errno nNewSize).val
    env := { st := (N.ftruncate e.st e.errno nNewSize).st
             errno := (N.ftruncate e.st e.errno nNewSize).errno
             trace := e.trace ++ [Call.ftruncate nNewSize] } }

/-- Call `fclose(fp)`. -/
def fclose (N : Native σ) (e : Env σ) : Res σ Int :=
  { val := (N.fclose e.st e.errno).val
    env := { st := (N.fclose e.st e.errno).st
             errno := (N.fclose e.st e.errno).errno
             trace := e.trace ++ [Call.fclose] } }

/-- One `VSIDebugN(...)` statement. -/
def vsiDebug (N : Native σ) (e : Env σ) : Env σ := { e with errno := N.vsiDebug e.errno }

/-- One `CPLDebug(...)` statement. -/
def cplDebug (N : Native σ) (e : Env σ) : Env σ := { e with errno := N.cplDebug e.errno }

end Env

/-! ## The handle -/

/-- The member variables of `class VSIUnixStdioHandle` other than `fp` (lines 147-152).
The three flags only ever hold `TRUE`/`FALSE`; `bAtEOF` holds what `feof` returned. -/
structure VSIUnixStdioHandle where
  m_nOffset : Nat
  bReadOnly : Bool
  bLastOpWrite : Bool
  bLastOpRead : Bool
  bAtEOF : Int
  deriving DecidableEq

/-- What a method leaves behind: its return value, the handle and the environment. -/
structure Out (σ α : Type) where
  ret : α
  h : VSIUnixStdioHandle
  e : Env σ

namespace VSIUnixStdioHandle

variable {σ : Type}

/-- The constructor (lines 177-188). -/
def new (bReadOnlyIn : Bool) : VSIUnixStdioHandle :=
  { m_nOffset := 0, bReadOnly := bReadOnlyIn, bLastOpWrite := false, bLastOpRead := false,
    bAtEOF := 0 }

/-- Method `Close()` (lines 194-204), without `VSI_COUNT_BYTES_READ`. -/
def Close (N : Native σ) (h : VSIUnixStdioHandle) (e : Env σ) : Out σ Int :=
  { ret := ((e.vsiDebug N).fclose N).val, h := h, e := ((e.vsiDebug N).fclose N).env }

/-- Second part of `Seek()`, lines 238-287: the native reposition call and the recomputation of
`m_nOffset`. `h` is the handle after line 212. -/
def SeekNative (N : Native σ) (h : VSIUnixStdioHandle) (e : Env σ) (nOffsetIn : Nat)
    (nWhence : Int) : Out σ Int :=
  let r := e.fseek N nOffsetIn nWhence
  let nResult := r.val
  let nError := r.env.errno
  let e1 := r.env.vsiDebug N
  let upd : VSIUnixStdioHandle × Env σ :=
    if nResult ≠ -1 then
      if nWhence = SEEK_SET then ({ h with m_nOffset := nOffsetIn }, e1)
      else if nWhence = SEEK_END then
        ({ h with m_nOffset := toU64 (e1.ftell N).val }, (e1.ftell N).env)
      else if nWhence = SEEK_CUR then
        ({ h with m_nOffset := (h.m_nOffset + nOffsetIn) % 2 ^ 64 }, e1)
      else (h, e1)
    else (h, e1)
  { ret := nResult
    h := { upd.1 with bLastOpWrite := false, bLastOpRead := false }
    e := { upd.2 with errno := nError } }

/-- Method `Seek()` (lines 210-287). -/
def Seek (N : Native σ) (h : VSIUnixStdioHandle) (e : Env σ) (nOffsetIn : Nat)
    (nWhence : Int) : Out σ Int :=
  let h0 : VSIUnixStdioHandle := { h with bAtEOF := 0 }
  if nWhence = SEEK_SET ∧ nOffsetIn = h0.m_nOffset then
    { ret := 0, h := h0, e := e }
  else
    let nDiff := wrapGIntBig (toGIntBig nOffsetIn - toGIntBig h0.m_nOffset)
    if h0.bReadOnly = true ∧ nWhence = SEEK_SET ∧ 0 < nDiff ∧ nDiff < 4096 then
      let r := e.fread N 1 (toSizeT (toInt32 nDiff))
      let nRead := toInt32 r.val.1
      if nRead = toInt32 nDiff then
        { ret := 0
          h := { h0 with m_nOffset := nOffsetIn, bLastOpWrite := false, bLastOpRead := false }
          e := r.env }
      else SeekNative N h0 r.env nOffsetIn nWhence
    else SeekNative N h0 e nOffsetIn nWhence

/-- Method `Tell()` (lines 293-306). -/
def Tell (h : VSIUnixStdioHandle) : Nat := h.m_nOffset

/-- Method `Flush()` (lines 312-318). -/
def Flush (N : Native σ) (h : VSIUnixStdioHandle) (e : Env σ) : Out σ Int :=
  { ret := ((e.vsiDebug N).fflush N).val, h := h, e := ((e.vsiDebug N).fflush N).env }

/-- The flushing seek that opens `Read()` (lines 334-340) and `Write()` (lines 395-401):
when the flag for the opposite direction is set, `VSI_FSEEK64(fp, m_nOffset, SEEK_SET)` is
called, and a nonzero result is only logged. -/
def flushingSeek (N : Native σ) (bLastOpOther : Bool) (h : VSIUnixStdioHandle) (e : Env σ) :
    Env σ :=
  if bLastOpOther = true then
    if (e.fseek N h.m_nOffset SEEK_SET).val ≠ 0 then (e.fseek N h.m_nOffset SEEK_SET).env.vsiDebug N
    else (e.fseek N h.m_nOffset SEEK_SET).env
  else e

/-- Last part of `Read()`, lines 366-375: after a short read, the resynchronisation of `m_nOffset` from
`ftell` and the update of `bAtEOF` from `feof`. `h` is the handle after line 364, `e` the
environment after the native read. -/
def ReadResync (N : Native σ) (h : VSIUnixStdioHandle) (e : Env σ) : VSIUnixStdioHandle × Env σ :=
  let t := Env.ftell N { e with errno := 0 }
  let h2 : VSIUnixStdioHandle :=
    if t.env.errno = 0 then { h with m_nOffset := toU64 t.val } else h
  let e3 : Env σ := if t.env.errno = 0 then t.env else t.env.cplDebug N
  ({ h2 with bAtEOF := (e3.feof N).val }, (e3.feof N).env)

/-- Method `Read()` (lines 324-378). The value returned is the element count together with the
bytes the native read stored in `pBuffer`. Under `VSI_DEBUG` the log statement after the
native read saves and restores `errno` itself, so it has no effect here. -/
def Read (N : Native σ) (h : VSIUnixStdioHandle) (e : Env σ) (nSize nCount : Nat) :
    Out σ (Nat × List Byte) :=
  let e1 := flushingSeek N h.bLastOpWrite h e
  let r := e1.fread N nSize nCount
  let nResult := r.val.1
  let h1 : VSIUnixStdioHandle :=
    { h with m_nOffset := (h.m_nOffset + (nSize * nResult) % 2 ^ 64) % 2 ^ 64
             bLastOpWrite := false, bLastOpRead := true }
  if nResult ≠ nCount then
    { ret := r.val, h := (ReadResync N h1 r.env).1, e := (ReadResync N h1 r.env).2 }
  else
    { ret := r.val, h := h1, e := r.env }

/-- Method `Write()` (lines 384-425). `pBuffer` is the list of bytes at the buffer's address. -/
def Write (N : Native σ) (h : VSIUnixStdioHandle) (e : Env σ) (pBuffer : List Byte)
    (nSize nCount : Nat) : Out σ Nat :=
  let e1 := flushingSeek N h.bLastOpRead h e
  let r := e1.fwrite N pBuffer nSize nCount
  let nResult := r.val
  { ret := nResult
    h := { h with m_nOffset := (h.m_nOffset + (nSize * nResult) % 2 ^ 64) % 2 ^ 64
                  bLastOpWrite := true, bLastOpRead := false }
    e := r.env }

/-- Method `Eof()` (lines 431-438). -/
def Eof (h : VSIUnixStdioHandle) : Int := if h.bAtEOF ≠ 0 then 1 else 0

/-- Method `Truncate()` (lines 444-448). -/
def Truncate (N : Native σ) (h : VSIUnixStdioHandle) (e : Env σ) (nNewSize : Nat) : Out σ Int :=
  { ret := ((e.fflush N).env.ftruncate N nNewSize).val
    h := h
    e := ((e.fflush N).env.ftruncate N nNewSize).env }

end VSIUnixStdioHandle


/-! ## The filesystem handler -/

/-- What `Open` hands back: `NULL`, the handle itself, or the handle wrapped by
`VSICreateCachedFile`. -/
inductive OpenResult where
  | null
  | raw (h : VSIUnixStdioHandle)
  | cached (h : VSIUnixStdioHandle)
  deriving DecidableEq

/-- What `Open` leaves behind: the value returned, `errno`, the stream when one is open on
return, and the native calls made on the `FILE*` after `fopen`. -/
structure OpenOut (σ : Type) where
  ret : OpenResult
  errno : Int
  st : Option σ
  trace : List Call

/-- Modelled from the spec: the class `CPLStringList` (declared in `cpl_string.h`, which is
not part of the source file), as far as `ReadDir` uses it. The list it holds is `NULL`
(`none`) until one is assigned or a string is added; the specification requires `ReadDir`
to return null when the directory cannot be opened and a non-null list of every entry
name, even an empty one, when it can. -/
structure CPLStringList where
  papszList : Option (List String)
  deriving DecidableEq

/-- Modelled from the spec: the default constructor of `CPLStringList`, holding no list. -/
def CPLStringList.empty : CPLStringList := { papszList := none }

/-- Modelled from the spec: `CPLStringList::Assign`, which takes over the given list (at
line 599 a freshly allocated list with no strings). -/
def CPLStringList.Assign (_ : CPLStringList) (papszListIn : List String) : CPLStringList :=
  { papszList := some papszListIn }

/-- Modelled from the spec: `CPLStringList::AddString`, which appends one string. -/
def CPLStringList.AddString (l : CPLStringList) (pszNewString : String) : CPLStringList :=
  { papszList := some (l.papszList.getD [] ++ [pszNewString]) }

/-- Modelled from the spec: `CPLStringList::StealList`, which hands the list over to the
caller, `NULL` when there is none. -/
def CPLStringList.StealList (l : CPLStringList) : Option (List String) := l.papszList

namespace VSIUnixStdioFilesystemHandler

variable {σ : Type}

/-- The test of line 506: `strcmp(pszAccess, "rb") == 0 || strcmp(pszAccess, "r") == 0`. -/
def isReadOnlyAccess (pszAccess : String) : Bool :=
  decide (pszAccess = "rb") || decide (pszAccess = "r")

/-- Method `Open()` (lines 489-529). `fopen` is `VSI_FOPEN64` (the stream or `NULL`, and
`errno` after the call), `bAllocOk` tells whether `new(std::nothrow)` returned an object,
and `bVSICache` is the value of
`CSLTestBoolean(CPLGetConfigOption("VSI_CACHE", "FALSE"))`. -/
def Open (N : Native σ) (fopen : String → String → Int → Option σ × Int) (bAllocOk : Bool)
    (bVSICache : Bool) (errno : Int) (pszFilename pszAccess : String) : OpenOut σ :=
  let nError := (fopen pszFilename pszAccess errno).2
  match (fopen pszFilename pszAccess errno).1 with
  | none => { ret := OpenResult.null, errno := nError, st := none, trace := [] }
  | some fp =>
    let bReadOnly := isReadOnlyAccess pszAccess
    if bAllocOk = false then
      { ret := OpenResult.null
        errno := (N.fclose fp (N.vsiDebug nError)).errno
        st := none
        trace := [Call.fclose] }
    else if bReadOnly = true ∧ bVSICache = true then
      { ret := OpenResult.cached (VSIUnixStdioHandle.new bReadOnly)
        errno := nError, st := some fp, trace := [] }
    else
      { ret := OpenResult.raw (VSIUnixStdioHandle.new bReadOnly)
        errno := nError, st := some fp, trace := [] }

/-- The directory queried for an empty path (line 592). -/
def currentDirectory : String := "."

/-- Method `ReadDir()` (lines 588-615). `opendir` gives, for a directory that can be
opened, the entry names that successive `readdir` calls yield; `none` as result stands
for the `NULL` list. -/
def ReadDir (opendir : String → Option (List String)) (pszPath : String) :
    Option (List String) :=
  let oDir : CPLStringList := CPLStringList.empty
  match opendir (if pszPath.length = 0 then currentDirectory else pszPath) with
  | some entries => (entries.foldl CPLStringList.AddString (oDir.Assign [])).StealList
  | none => oDir.StealList

end VSIUnixStdioFilesystemHandler

/-! ## Sequences of calls -/

/-- One call of a method of the handle by its user. -/
inductive Op where
  | seek (nOffset : Nat) (nWhence : Int)
  | tell
  | read (nSize nCount : Nat)
  | write (pBuffer : List Byte) (nSize nCount : Nat)
  | eof
  | flush
  | truncate (nNewSize : Nat)

/-- Whether the call is a `Write`. -/
def Op.isWrite : Op → Bool
  | Op.write _ _ _ => true
  | _ => false

/-- The handle and its environment. -/
structure Sys (σ : Type) where
  h : VSIUnixStdioHandle
  e : Env σ

/-- The effect of one call on the handle and its environment. -/
def Sys.step {σ : Type} (N : Native σ) (s : Sys σ) : Op → Sys σ
  | Op.seek nOffset nWhence =>
      { h := (s.h.Seek N s.e nOffset nWhence).h, e := (s.h.Seek N s.e nOffset nWhence).e }
  | Op.tell => s
  | Op.read nSize nCount =>
      { h := (s.h.Read N s.e nSize nCount).h, e := (s.h.Read N s.e nSize nCount).e }
  | Op.write pBuffer nSize nCount =>
      { h := (s.h.Write N s.e pBuffer nSize nCount).h
        e := (s.h.Write N s.e pBuffer nSize nCount).e }
  | Op.eof => s
  | Op.flush => { h := (s.h.Flush N s.e).h, e := (s.h.Flush N s.e).e }
  | Op.truncate nNewSize =>
      { h := (s.h.Truncate N s.e nNewSize).h, e := (s.h.Truncate N s.e nNewSize).e }

/-- The effect of a sequence of calls, first call first. -/
def Sys.run {σ : Type} (N : Native σ) (s : Sys σ) (ops : List Op) : Sys σ :=
  ops.foldl (Sys.step N) s

/-- Direction of a native data transfer. -/
inductive Dir where
  | rd
  | wr
  deriving DecidableEq

/-- State of the scan of a trace: `ok` is false once a native read has directly followed
a native write, or a native write a native read, with no `fseek` between them; `last` is
the direction of the last native transfer since the last `fseek`. -/
structure Scan where
  ok : Bool
  last : Option Dir
  deriving DecidableEq

/-- Scanning one native call. -/
def Scan.call (s : Scan) : Call → Scan
  | Call.fseek _ _ => { s with last := none }
  | Call.fread _ _ => { ok := s.ok && decide (s.last ≠ some Dir.wr), last := some Dir.rd }
  | Call.fwrite _ _ => { ok := s.ok && decide (s.last ≠ some Dir.rd), last := some Dir.wr }
  | _ => s

/-- Scan of a whole trace. -/
def scanTrace (t : List Call) : Scan := t.foldl Scan.call { ok := true, last := none }

/-- The trace never switches between native read and native write without an `fseek`
between the two. -/
def switchesGuarded (t : List Call) : Prop := (scanTrace t).ok = true

instance (t : List Call) : Decidable (switchesGuarded t) := by
  unfold switchesGuarded; infer_instance

/-! ## A reference model of the host stream -/

/-- Value of `EBADF`. -/
def EBADF : Int := 9
/-- Value of `EINVAL`. -/
def EINVAL : Int := 22
/-- Value of `ESPIPE`. -/
def ESPIPE : Int := 29

/-- A buffered stream of the host over a byte sequence: the bytes of the file (for a pipe,
the bytes that will ever arrive), the file position, the end-of-file indicator, and what
the stream was opened for. A pipe is a stream with `seekable = false`. -/
structure Stream where
  data : List Byte
  pos : Nat
  eof : Bool
  canRead : Bool
  canWrite : Bool
  append : Bool
  seekable : Bool
  deriving DecidableEq

namespace Stream

/-- Host `fread`: transfers the bytes available from the position, at most
`nSize * nCount`, returns the number of complete elements, and sets the end-of-file
indicator when fewer bytes than requested were available. With `nSize` or `nCount` zero
nothing happens. -/
def fread (s : Stream) (errno : Int) (nSize nCount : Nat) : Ret Stream (Nat × List Byte) :=
  if nSize = 0 ∨ nCount = 0 then { val := (0, []), st := s, errno := errno }
  else if s.canRead = false then { val := (0, []), st := s, errno := EBADF }
  else
    let got := (s.data.drop s.pos).take (nSize * nCount)
    { val := (got.length / nSize, got)
      st := { s with pos := s.pos + got.length
                     eof := s.eof || decide (got.length < nSize * nCount) }
      errno := errno }

/-- File contents after writing `bytes` at offset `off`; a gap beyond the old end is filled
with zero bytes. -/
def overwrite (data : List Byte) (off : Nat) (bytes : List Byte) : List Byte :=
  (data ++ List.replicate (off - data.length) 0).take off ++ bytes
    ++ data.drop (off + bytes.length)

/-- Host `fwrite`: writes the first `nSize * nCount` bytes of the buffer at the position
(at the end of the file for a stream in append mode) and returns the number of complete
elements written. -/
def fwrite (s : Stream) (errno : Int) (buf : List Byte) (nSize nCount : Nat) : Ret Stream Nat :=
  if nSize = 0 ∨ nCount = 0 then { val := 0, st := s, errno := errno }
  else if s.canWrite = false then { val := 0, st := s, errno := EBADF }
  else
    let bytes := buf.take (nSize * nCount)
    let off := if s.append = true then s.data.length else s.pos
    { val := bytes.length / nSize
      st := { s with data := overwrite s.data off bytes, pos := off + bytes.length }
      errno := errno }

/-- Host `fseek`: the offset is read as a signed 64-bit `off_t`; the call fails on a pipe,
for an unknown `whence`, and when the resulting position is negative or not representable;
on success it clears the end-of-file indicator. -/
def fseek (s : Stream) (errno : Int) (nOffset : Nat) (nWhence : Int) : Ret Stream Int :=
  if s.seekable = false then { val := -1, st := s, errno := ESPIPE }
  else if nWhence ≠ SEEK_SET ∧ nWhence ≠ SEEK_CUR ∧ nWhence ≠ SEEK_END then
    { val := -1, st := s, errno := EINVAL }
  else
    let base : Int :=
      if nWhence = SEEK_SET then 0 else if nWhence = SEEK_CUR then s.pos else s.data.length
    let target : Int := base + toGIntBig nOffset
    if target < 0 ∨ 2 ^ 63 ≤ target then { val := -1, st := s, errno := EINVAL }
    else { val := 0, st := { s with pos := target.toNat, eof := false }, errno := errno }

/-- Host `ftell`: the position, or -1 with `ESPIPE` on a pipe. -/
def ftell (s : Stream) (errno : Int) : Ret Stream Int :=
  if s.seekable = false then { val := -1, st := s, errno := ESPIPE }
  else { val := s.pos, st := s, errno := errno }

/-- Host `feof`. -/
def feof (s : Stream) : Int := if s.eof = true then 1 else 0

/-- Host `fflush`: the model has no separate buffer, so nothing changes. -/
def fflush (s : Stream) (errno : Int) : Ret Stream Int := { val := 0, st := s, errno := errno }

/-- Host `ftruncate` on the stream's descriptor. -/
def ftruncate (s : Stream) (errno : Int) (nNewSize : Nat) : Ret Stream Int :=
  if s.canWrite = false then { val := -1, st := s, errno := EINVAL }
  else
    { val := 0
      st := { s with data := (s.data ++ List.replicate (nNewSize - s.data.length) 0).take nNewSize }
      errno := errno }

/-- Host `fclose`. -/
def fclose (s : Stream) (errno : Int) : Ret Stream Int := { val := 0, st := s, errno := errno }

end Stream

/-- The host C library over `Stream`, in a build where diagnostic printing leaves `errno`
alone. -/
def hostStdio : Native Stream :=
  { fread := Stream.fread
    fwrite := Stream.fwrite
    fseek := Stream.fseek
    ftell := Stream.ftell
    feof := Stream.feof
    fflush := Stream.fflush
    ftruncate := Stream.ftruncate
    fclose := Stream.fclose
    vsiDebug := id
    cplDebug := id }

/-- An environment with the given stream, `errno` zero and an empty trace. -/
def Env.start {σ : Type} (st : σ) : Env σ := { st := st, errno := 0, trace := [] }

/-- The tracked offset equals the native file position. -/
def inSync (h : VSIUnixStdioHandle) (e : Env Stream) : Prop := h.m_nOffset = e.st.pos

instance (h : VSIUnixStdioHandle) (e : Env Stream) : Decidable (inSync h e) := by
  unfold inSync; infer_instance

/-! ## Quantities named in the statements -/

section SeekCases

open VSIUnixStdioHandle

variable {σ : Type} (N : Native σ) (h : VSIUnixStdioHandle) (e : Env σ) (o : Nat) (w : Int)

/-- The handle after line 212 of `Seek()`. -/
def afterClearEof (h : VSIUnixStdioHandle) : VSIUnixStdioHandle := { h with bAtEOF := 0 }

/-- The value `nDiff` of line 223. -/
def seekDiff (h : VSIUnixStdioHandle) (o : Nat) : Int :=
  wrapGIntBig (toGIntBig o - toGIntBig h.m_nOffset)

/-- The guard of lines 221 and 224 taken together. -/
def discardGuard (h : VSIUnixStdioHandle) (o : Nat) (w : Int) : Prop :=
  h.bReadOnly = true ∧ w = SEEK_SET ∧ 0 < seekDiff h o ∧ seekDiff h o < 4096

instance (h : VSIUnixStdioHandle) (o : Nat) (w : Int) : Decidable (discardGuard h o w) := by
  unfold discardGuard; infer_instance

/-- The discard read of line 227. -/
def discardRead : Res σ (Nat × List Byte) :=
  e.fread N 1 (toSizeT (toInt32 (seekDiff h o)))

/-- Invariant of a handle that may write: the trace so far is guarded, and the direction
of the last native transfer since the last `fseek` is recorded in the handle's flags. -/
def flagsTrackTrace {σ : Type} (s : Sys σ) : Prop :=
  (scanTrace s.e.trace).ok = true ∧
  ((scanTrace s.e.trace).last = some Dir.wr → s.h.bLastOpWrite = true) ∧
  ((scanTrace s.e.trace).last = some Dir.rd → s.h.bLastOpRead = true)

/-- Invariant of a handle on which `Write` is never called: the trace so far is guarded
and no native write is pending. -/
def noWritePending {σ : Type} (s : Sys σ) : Prop :=
  (scanTrace s.e.trace).ok = true ∧ (scanTrace s.e.trace).last ≠ some Dir.wr

/-- The calls of `Seek` do not stop before the native reposition call of line 238: neither
the short circuit of line 216 nor the committed discard read of lines 228-234 applies. -/
def reachesNative : Prop :=
  ¬ (w = SEEK_SET ∧ o = h.m_nOffset) ∧
  ¬ (discardGuard h o w ∧ toInt32 (discardRead N h e o).val.1 = toInt32 (seekDiff h o))

instance : Decidable (reachesNative N h e o w) := by
  unfold reachesNative; infer_instance

/-- The environment in which `Seek` issues the native reposition call of line 238: the one
left by the discard read when that was attempted, the initial one otherwise. -/
def envAtReposition : Env σ :=
  if discardGuard h o w then (discardRead N h e o).env else e

/-- The difference `a - b` of two `vsi_l_offset` values in unsigned 64-bit arithmetic. -/
def subU64 (a b : Nat) : Nat := toU64 ((a : Int) - (b : Int))

/-- The native calls a method has added to the trace: those of `after` beyond `before`. -/
def issuedSince {σ : Type} (before after : Env σ) : List Call :=
  after.trace.drop before.trace.length

/-- A host C library whose diagnostic printing and whose `ftell` overwrite `errno`: the
reference stream in a build with `VSI_DEBUG`, used to exercise the statements about
`errno`. -/
def noisyStdio : Native Stream :=
  { hostStdio with
    ftell := fun s _ => { val := s.pos, st := s, errno := 77 }
    vsiDebug := fun _ => 99
    cplDebug := fun _ => 98 }

/-- The two flags `bLastOpWrite` and `bLastOpRead` are not both set. -/
def flagsExclusive (h : VSIUnixStdioHandle) : Prop :=
  ¬ (h.bLastOpWrite = true ∧ h.bLastOpRead = true)

instance (h : VSIUnixStdioHandle) : Decidable (flagsExclusive h) := by
  unfold flagsExclusive; infer_instance

/-- The value of `lastOperation` that the two flags encode. -/
inductive LastOperation where
  | None
  | Read
  | Write
  deriving DecidableEq

/-- Reading of the pair of flags as a `lastOperation`. -/
def lastOperation (h : VSIUnixStdioHandle) : LastOperation :=
  if h.bLastOpWrite = true then LastOperation.Write
  else if h.bLastOpRead = true then LastOperation.Read
  else LastOperation.None

/-! ## Case analysis of the methods -/

theorem Seek_fast (hw : w = SEEK_SET) (ho : o = h.m_nOffset) :
    h.Seek N e o w = { ret := 0, h := afterClearEof h, e := e } := by
  simp [Seek, hw, ho, afterClearEof]

theorem Seek_discard (h1 : ¬(w = SEEK_SET ∧ o = h.m_nOffset)) (h2 : discardGuard h o w)
    (h3 : toInt32 (discardRead N h e o).val.1 = toInt32 (seekDiff h o)) :
    h.Seek N e o w =
      { ret := 0
        h := { afterClearEof h with m_nOffset := o, bLastOpWrite := false, bLastOpRead := false }
        e := (discardRead N h e o).env } := by
  unfold discardGuard seekDiff at h2
  unfold discardRead seekDiff at h3
  unfold Seek
  simp only [afterClearEof, discardRead, seekDiff]
  rw [if_neg h1, if_pos h2, if_pos h3]

theorem Seek_fallback (h1 : ¬(w = SEEK_SET ∧ o = h.m_nOffset)) (h2 : discardGuard h o w)
    (h3 : ¬ toInt32 (discardRead N h e o).val.1 = toInt32 (seekDiff h o)) :
    h.Seek N e o w = SeekNative N (afterClearEof h) (discardRead N h e o).env o w := by
  unfold discardGuard seekDiff at h2
  unfold discardRead seekDiff at h3
  unfold Seek
  simp only [afterClearEof, discardRead, seekDiff]
  rw [if_neg h1, if_pos h2, if_neg h3]

theorem Seek_general (h1 : ¬(w = SEEK_SET ∧ o = h.m_nOffset)) (h2 : ¬ discardGuard h o w) :
    h.Seek N e o w = SeekNative N (afterClearEof h) e o w := by
  unfold discardGuard seekDiff at h2
  unfold Seek
  simp only [afterClearEof]
  rw [if_neg h1, if_neg h2]

theorem SeekNative_ret : (SeekNative N h e o w).ret = (e.fseek N o w).val := rfl

theorem SeekNative_errno : (SeekNative N h e o w).e.errno = (e.fseek N o w).env.errno := rfl

theorem SeekNative_flags :
    (SeekNative N h e o w).h.bLastOpWrite = false ∧ (SeekNative N h e o w).h.bLastOpRead = false :=
  ⟨rfl, rfl⟩

theorem SeekNative_set_ok (hne : (e.fseek N o SEEK_SET).val ≠ -1) :
    (SeekNative N h e o SEEK_SET).h.m_nOffset = o := by
  simp [SeekNative, hne]

theorem scanTrace_snoc (t : List Call) (c : Call) :
    scanTrace (t ++ [c]) = (scanTrace t).call c := by
  simp [scanTrace, List.foldl_append]

theorem scan_fseek (o : Nat) (w : Int) :
    scanTrace (e.fseek N o w).env.trace = { ok := (scanTrace e.trace).ok, last := none } := by
  simp [Env.fseek, scanTrace_snoc, Scan.call]

theorem scan_fread (a b : Nat) :
    scanTrace (e.fread N a b).env.trace =
      { ok := (scanTrace e.trace).ok && decide ((scanTrace e.trace).last ≠ some Dir.wr)
        last := some Dir.rd } := by
  simp [Env.fread, scanTrace_snoc, Scan.call]

theorem scan_fwrite (buf : List Byte) (a b : Nat) :
    scanTrace (e.fwrite N buf a b).env.trace =
      { ok := (scanTrace e.trace).ok && decide ((scanTrace e.trace).last ≠ some Dir.rd)
        last := some Dir.wr } := by
  simp [Env.fwrite, scanTrace_snoc, Scan.call]

theorem scan_ftell : scanTrace (e.ftell N).env.trace = scanTrace e.trace := by
  simp [Env.ftell, scanTrace_snoc, Scan.call]

theorem scan_feof : scanTrace (e.feof N).env.trace = scanTrace e.trace := by
  simp [Env.feof, scanTrace_snoc, Scan.call]

theorem scan_fflush : scanTrace (e.fflush N).env.trace = scanTrace e.trace := by
  simp [Env.fflush, scanTrace_snoc, Scan.call]

theorem scan_ftruncate (n : Nat) : scanTrace (e.ftruncate N n).env.trace = scanTrace e.trace := by
  simp [Env.ftruncate, scanTrace_snoc, Scan.call]

theorem scan_SeekNative :
    scanTrace (SeekNative N h e o w).e.trace = { ok := (scanTrace e.trace).ok, last := none } := by
  have key : (SeekNative N h e o w).e.trace = (e.fseek N o w).env.trace ∨
      (SeekNative N h e o w).e.trace = ((e.fseek N o w).env.vsiDebug N |>.ftell N).env.trace := by
    simp only [SeekNative]
    split_ifs <;> simp [Env.vsiDebug]
  rcases key with k | k
  · rw [k, scan_fseek]
  · rw [k, scan_ftell]
    exact scan_fseek N e o w

theorem scan_flushingSeek (b : Bool) :
    scanTrace (flushingSeek N b h e).trace =
      if b = true then { ok := (scanTrace e.trace).ok, last := none } else scanTrace e.trace := by
  unfold flushingSeek
  split_ifs
  · exact scan_fseek N e _ _
  · exact scan_fseek N e _ _
  · rfl

theorem scan_ReadResync : scanTrace (ReadResync N h e).2.trace = scanTrace e.trace := by
  have key : (ReadResync N h e).2.trace = e.trace ++ [Call.ftell] ++ [Call.feof] := by
    simp only [ReadResync, Env.feof, Env.ftell, Env.cplDebug]
    split_ifs <;> rfl
  rw [key, scanTrace_snoc, scanTrace_snoc]
  rfl

theorem scan_Read (a b : Nat) :
    scanTrace (h.Read N e a b).e.trace =
      { ok := (scanTrace (flushingSeek N h.bLastOpWrite h e).trace).ok &&
              decide ((scanTrace (flushingSeek N h.bLastOpWrite h e).trace).last ≠ some Dir.wr)
        last := some Dir.rd } := by
  unfold Read
  simp only
  split_ifs
  · rw [scan_ReadResync, scan_fread]
  · rw [scan_fread]

theorem scan_Write (buf : List Byte) (a b : Nat) :
    scanTrace (h.Write N e buf a b).e.trace =
      { ok := (scanTrace (flushingSeek N h.bLastOpRead h e).trace).ok &&
              decide ((scanTrace (flushingSeek N h.bLastOpRead h e).trace).last ≠ some Dir.rd)
        last := some Dir.wr } := by
  unfold Write
  simp only
  rw [scan_fwrite]

theorem SeekNative_bReadOnly : (SeekNative N h e o w).h.bReadOnly = h.bReadOnly := by
  simp only [SeekNative]
  split_ifs <;> rfl

theorem Read_bReadOnly (a b : Nat) : (h.Read N e a b).h.bReadOnly = h.bReadOnly := by
  unfold Read ReadResync
  simp only
  split_ifs <;> rfl

theorem Read_flags (a b : Nat) :
    (h.Read N e a b).h.bLastOpRead = true ∧ (h.Read N e a b).h.bLastOpWrite = false := by
  unfold Read ReadResync
  simp only
  split_ifs <;> exact ⟨rfl, rfl⟩

theorem flagsTrackTrace_step (s : Sys σ) (hrw : s.h.bReadOnly = false)
    (hinv : flagsTrackTrace s) (op : Op) :
    flagsTrackTrace (s.step N op) ∧ (s.step N op).h.bReadOnly = false := by
  obtain ⟨hok, hwr, hrd⟩ := hinv
  cases op with
  | seek o w =>
    by_cases h1 : w = SEEK_SET ∧ o = s.h.m_nOffset
    · simp only [Sys.step, Seek_fast N s.h s.e o w h1.1 h1.2]
      exact ⟨⟨hok, hwr, hrd⟩, hrw⟩
    · have h2 : ¬ discardGuard s.h o w := by
        intro hg
        have hg1 : s.h.bReadOnly = true := hg.1
        rw [hrw] at hg1
        exact Bool.false_ne_true hg1
      simp only [Sys.step, Seek_general N s.h s.e o w h1 h2]
      refine ⟨⟨?_, ?_, ?_⟩, ?_⟩
      · rw [scan_SeekNative]; exact hok
      · rw [scan_SeekNative]; intro hc; cases hc
      · rw [scan_SeekNative]; intro hc; cases hc
      · rw [SeekNative_bReadOnly]; exact hrw
  | tell => exact ⟨⟨hok, hwr, hrd⟩, hrw⟩
  | eof => exact ⟨⟨hok, hwr, hrd⟩, hrw⟩
  | read a b =>
    simp only [Sys.step]
    refine ⟨⟨?_, ?_, ?_⟩, ?_⟩
    · rw [scan_Read, scan_flushingSeek]
      by_cases hb : s.h.bLastOpWrite = true
      · simp [hb, hok]
      · have hl : (scanTrace s.e.trace).last ≠ some Dir.wr := fun hc => hb (hwr hc)
        simp [hb, hok, hl]
    · rw [scan_Read]; intro hc; cases hc
    · intro _; exact (Read_flags N s.h s.e a b).1
    · rw [Read_bReadOnly]; exact hrw
  | write buf a b =>
    simp only [Sys.step]
    refine ⟨⟨?_, ?_, ?_⟩, hrw⟩
    · rw [scan_Write, scan_flushingSeek]
      by_cases hb : s.h.bLastOpRead = true
      · simp [hb, hok]
      · have hl : (scanTrace s.e.trace).last ≠ some Dir.rd := fun hc => hb (hrd hc)
        simp [hb, hok, hl]
    · intro _; rfl
    · rw [scan_Write]; intro hc; cases hc
  | flush =>
    simp only [Sys.step, Flush]
    refine ⟨⟨?_, ?_, ?_⟩, hrw⟩
    · rw [scan_fflush]; exact hok
    · rw [scan_fflush]; exact hwr
    · rw [scan_fflush]; exact hrd
  | truncate n =>
    simp only [Sys.step, Truncate]
    refine ⟨⟨?_, ?_, ?_⟩, hrw⟩
    · rw [scan_ftruncate, scan_fflush]; exact hok
    · rw [scan_ftruncate, scan_fflush]; exact hwr
    · rw [scan_ftruncate, scan_fflush]; exact hrd

theorem noWritePending_step (s : Sys σ) (hinv : noWritePending s) (op : Op)
    (hop : op.isWrite = false) : noWritePending (s.step N op) := by
  obtain ⟨hok, hl⟩ := hinv
  cases op with
  | seek o w =>
    by_cases h1 : w = SEEK_SET ∧ o = s.h.m_nOffset
    · simp only [Sys.step, Seek_fast N s.h s.e o w h1.1 h1.2]
      exact ⟨hok, hl⟩
    · by_cases h2 : discardGuard s.h o w
      · by_cases h3 : toInt32 (discardRead N s.h s.e o).val.1 = toInt32 (seekDiff s.h o)
        · simp only [Sys.step, Seek_discard N s.h s.e o w h1 h2 h3, noWritePending, discardRead]
          rw [scan_fread]
          simp [hok, hl]
        · simp only [Sys.step, Seek_fallback N s.h s.e o w h1 h2 h3, noWritePending]
          rw [scan_SeekNative]
          simp only [discardRead]
          rw [scan_fread]
          simp [hok, hl]
      · simp only [Sys.step, Seek_general N s.h s.e o w h1 h2, noWritePending]
        rw [scan_SeekNative]
        simp [hok]
  | tell => exact ⟨hok, hl⟩
  | eof => exact ⟨hok, hl⟩
  | read a b =>
    simp only [Sys.step, noWritePending]
    rw [scan_Read, scan_flushingSeek]
    by_cases hb : s.h.bLastOpWrite = true
    · simp [hb, hok]
    · simp [hb, hok, hl]
  | write buf a b => simp [Op.isWrite] at hop
  | flush =>
    simp only [Sys.step, Flush, noWritePending]
    rw [scan_fflush]; exact ⟨hok, hl⟩
  | truncate n =>
    simp only [Sys.step, Truncate, noWritePending]
    rw [scan_ftruncate, scan_fflush]; exact ⟨hok, hl⟩

theorem flagsTrackTrace_run (ops : List Op) (s : Sys σ) (hrw : s.h.bReadOnly = false)
    (hinv : flagsTrackTrace s) : flagsTrackTrace (s.run N ops) := by
  induction ops generalizing s with
  | nil => exact hinv
  | cons op rest ih =>
    have hs := flagsTrackTrace_step N s hrw hinv op
    exact ih (s.step N op) hs.2 hs.1

theorem noWritePending_run (ops : List Op) (s : Sys σ) (hinv : noWritePending s)
    (hops : ∀ op ∈ ops, op.isWrite = false) : noWritePending (s.run N ops) := by
  induction ops generalizing s with
  | nil => exact hinv
  | cons op rest ih =>
    exact ih (s.step N op)
      (noWritePending_step N s hinv op (hops op (List.mem_cons_self _ _)))
      (fun x hx => hops x (List.mem_cons_of_mem _ hx))

end SeekCases

/-! ## The handle over the reference stream -/

section Host

open VSIUnixStdioHandle

variable (h : VSIUnixStdioHandle) (e : Env Stream)

theorem toGIntBig_of_lt {x : Nat} (hx : x < 2 ^ 63) : toGIntBig x = (x : Int) := by
  unfold toGIntBig
  have h1 : x % 2 ^ 64 = x := Nat.mod_eq_of_lt (by omega)
  rw [h1, if_pos hx]

theorem toGIntBig_of_ge {x : Nat} (hx : 2 ^ 63 ≤ x) (hx2 : x < 2 ^ 64) :
    toGIntBig x = (x : Int) - 2 ^ 64 := by
  unfold toGIntBig
  have h1 : x % 2 ^ 64 = x := Nat.mod_eq_of_lt hx2
  rw [h1, if_neg (by omega)]

theorem toU64_natCast {x : Nat} (hx : x < 2 ^ 64) : toU64 (x : Int) = x := by
  unfold toU64
  omega

/-- Under synchronisation the flushing seek moves nothing: it can only clear the stream's
indicator of end of file, set `errno` and extend the trace. -/
theorem host_flushingSeek_st (b : Bool) (hsync : inSync h e) (hm : h.m_nOffset < 2 ^ 64) :
    (flushingSeek hostStdio b h e).st.data = e.st.data ∧
    (flushingSeek hostStdio b h e).st.pos = e.st.pos ∧
    (flushingSeek hostStdio b h e).st.canRead = e.st.canRead ∧
    (flushingSeek hostStdio b h e).st.canWrite = e.st.canWrite ∧
    (flushingSeek hostStdio b h e).st.append = e.st.append ∧
    (flushingSeek hostStdio b h e).st.seekable = e.st.seekable := by
  unfold inSync at hsync
  unfold flushingSeek
  by_cases hb : b = true
  · rw [if_pos hb]
    have key : (Env.fseek hostStdio e h.m_nOffset SEEK_SET).env.st.data = e.st.data ∧
        (Env.fseek hostStdio e h.m_nOffset SEEK_SET).env.st.pos = e.st.pos ∧
        (Env.fseek hostStdio e h.m_nOffset SEEK_SET).env.st.canRead = e.st.canRead ∧
        (Env.fseek hostStdio e h.m_nOffset SEEK_SET).env.st.canWrite = e.st.canWrite ∧
        (Env.fseek hostStdio e h.m_nOffset SEEK_SET).env.st.append = e.st.append ∧
        (Env.fseek hostStdio e h.m_nOffset SEEK_SET).env.st.seekable = e.st.seekable := by
      simp only [Env.fseek, hostStdio, Stream.fseek]
      split_ifs with c1 c2 c3
      · exact ⟨rfl, rfl, rfl, rfl, rfl, rfl⟩
      · exact ⟨rfl, rfl, rfl, rfl, rfl, rfl⟩
      · exact ⟨rfl, rfl, rfl, rfl, rfl, rfl⟩
      · refine ⟨rfl, ?_, rfl, rfl, rfl, rfl⟩
        simp only [not_or, not_lt, not_le] at c3
        by_cases hlt : h.m_nOffset < 2 ^ 63
        · rw [toGIntBig_of_lt hlt]; simp; omega
        · exfalso
          have := toGIntBig_of_ge (not_lt.mp hlt) hm
          omega
    split_ifs
    · exact key
    · exact key
  · rw [if_neg hb]
    exact ⟨rfl, rfl, rfl, rfl, rfl, rfl⟩

theorem Stream.fread_errno_irrelevant (s : Stream) (er : Int) (a b : Nat) :
    (Stream.fread s er a b).val = (Stream.fread s 0 a b).val ∧
    (Stream.fread s er a b).st = (Stream.fread s 0 a b).st := by
  unfold Stream.fread
  split_ifs <;> exact ⟨rfl, rfl⟩

theorem Stream.fread_frame (s : Stream) (er : Int) (a b : Nat) :
    (Stream.fread s er a b).st.data = s.data ∧
    (Stream.fread s er a b).st.canRead = s.canRead ∧
    (Stream.fread s er a b).st.canWrite = s.canWrite ∧
    (Stream.fread s er a b).st.append = s.append ∧
    (Stream.fread s er a b).st.seekable = s.seekable := by
  unfold Stream.fread
  split_ifs <;> exact ⟨rfl, rfl, rfl, rfl, rfl⟩

/-- What `Read` does over the reference stream, in terms of the native read issued on the
stream left by the flushing seek. -/
theorem host_Read_spec (a b : Nat) :
    (h.Read hostStdio e a b).ret =
      (Stream.fread (flushingSeek hostStdio h.bLastOpWrite h e).st 0 a b).val ∧
    (h.Read hostStdio e a b).e.st =
      (Stream.fread (flushingSeek hostStdio h.bLastOpWrite h e).st 0 a b).st ∧
    (h.Read hostStdio e a b).h.m_nOffset =
      (if (Stream.fread (flushingSeek hostStdio h.bLastOpWrite h e).st 0 a b).val.1 = b ∨
          e.st.seekable = false then
        (h.m_nOffset +
          a * (Stream.fread (flushingSeek hostStdio h.bLastOpWrite h e).st 0 a b).val.1) % 2 ^ 64
      else toU64 (Stream.fread (flushingSeek hostStdio h.bLastOpWrite h e).st 0 a b).st.pos) ∧
    (h.Read hostStdio e a b).h.bAtEOF =
      (if (Stream.fread (flushingSeek hostStdio h.bLastOpWrite h e).st 0 a b).val.1 = b then
        h.bAtEOF
      else Stream.feof (Stream.fread (flushingSeek hostStdio h.bLastOpWrite h e).st 0 a b).st) := by
  have hseek : (flushingSeek hostStdio h.bLastOpWrite h e).st.seekable = e.st.seekable := by
    unfold flushingSeek
    simp only [Env.fseek, hostStdio, Stream.fseek, Env.vsiDebug]
    split_ifs <;> rfl
  obtain ⟨hv, hs⟩ := Stream.fread_errno_irrelevant (flushingSeek hostStdio h.bLastOpWrite h e).st
    (flushingSeek hostStdio h.bLastOpWrite h e).errno a b
  have hfr := (Stream.fread_frame (flushingSeek hostStdio h.bLastOpWrite h e).st 0 a b).2.2.2.2
  rw [hseek] at hfr
  unfold Read
  simp only
  rw [← hv, ← hs]
  generalize flushingSeek hostStdio h.bLastOpWrite h e = e1 at *
  replace hfr : (Stream.fread e1.st e1.errno a b).st.seekable = e.st.seekable := by
    rw [hs]; exact hfr
  by_cases hn : (Env.fread hostStdio e1 a b).val.1 = b
  · have hn2 : (Stream.fread e1.st e1.errno a b).val.1 = b := hn
    rw [if_neg (not_not.mpr hn), if_pos (Or.inl hn2), if_pos hn2]
    refine ⟨rfl, rfl, ?_, rfl⟩
    simp only [Nat.add_mod_mod]
    rfl
  · have hn2 : ¬ (Stream.fread e1.st e1.errno a b).val.1 = b := hn
    rw [if_pos hn, if_neg hn2]
    refine ⟨rfl, ?_, ?_, ?_⟩
    · simp only [ReadResync, Env.feof, Env.ftell, hostStdio, Stream.ftell, Env.cplDebug]
      split_ifs <;> rfl
    · by_cases hsk : e.st.seekable = false
      · rw [if_pos (Or.inr hsk)]
        rw [hsk] at hfr
        simp only [ReadResync, Env.feof, Env.ftell, hostStdio, Stream.ftell, Env.cplDebug,
          Env.fread]
        simp [hfr, ESPIPE]
      · rw [if_neg (by simp only [not_or]; exact ⟨hn2, hsk⟩)]
        have hsk2 : (Stream.fread e1.st e1.errno a b).st.seekable = true := by
          rw [hfr]; simpa using hsk
        simp only [ReadResync, Env.feof, Env.ftell, hostStdio, Stream.ftell, Env.cplDebug,
          Env.fread]
        simp [hsk2]
    · simp only [ReadResync, Env.feof, Env.ftell, hostStdio, Stream.ftell, Env.cplDebug,
        Env.fread]
      split_ifs <;> rfl

theorem Stream.fread_short (s : Stream) (a b : Nat) (ha : 0 < a) (hcr : s.canRead = true)
    (hmore : (s.data.length - s.pos) / a < b) :
    (Stream.fread s 0 a b).val.1 = (s.data.length - s.pos) / a ∧
    (Stream.fread s 0 a b).st.eof = true ∧
    (Stream.fread s 0 a b).st.pos = s.pos + (s.data.length - s.pos) := by
  have hb : 0 < b := Nat.lt_of_le_of_lt (Nat.zero_le _) hmore
  have hlt : s.data.length - s.pos < a * b := by
    rw [Nat.mul_comm]; exact (Nat.div_lt_iff_lt_mul ha).mp hmore
  have hlen : ((s.data.drop s.pos).take (a * b)).length = s.data.length - s.pos := by
    rw [List.length_take, List.length_drop]; omega
  unfold Stream.fread
  rw [if_neg (by omega), if_neg (by simp [hcr])]
  refine ⟨?_, ?_, ?_⟩
  · simp only [hlen]
  · simp only [hlen]
    simp [hlt]
  · simp only [hlen]

theorem Stream.fread_at_end (s : Stream) (a b : Nat) (hend : s.data.length ≤ s.pos) :
    (Stream.fread s 0 a b).val.1 = 0 ∧
    (Stream.fread s 0 a b).st.pos = s.pos ∧
    (s.eof = true → (Stream.fread s 0 a b).st.eof = true) := by
  have hnil : (s.data.drop s.pos).take (a * b) = [] := by
    rw [List.drop_eq_nil_of_le hend]; simp
  unfold Stream.fread
  split_ifs
  · exact ⟨rfl, rfl, id⟩
  · exact ⟨rfl, rfl, id⟩
  · simp only [hnil]
    refine ⟨by simp, by simp, ?_⟩
    intro he
    simp [he]

theorem toInt32_of_small {z : Int} (h0 : 0 ≤ z) (h1 : z < 2 ^ 31) : toInt32 z = z := by
  unfold toInt32
  split_ifs <;> omega

theorem seekDiff_forward {t : Nat} (hm : h.m_nOffset ≤ t) (ht : t < 2 ^ 63) :
    seekDiff h t = (t : Int) - (h.m_nOffset : Int) := by
  unfold seekDiff wrapGIntBig
  rw [toGIntBig_of_lt ht, toGIntBig_of_lt (show h.m_nOffset < 2 ^ 63 by omega)]
  have hz : (((t : Int) - (h.m_nOffset : Int)) % 2 ^ 64).toNat = t - h.m_nOffset := by omega
  rw [hz, toGIntBig_of_lt (by omega)]
  omega

theorem Stream.fread_congr (s1 s2 : Stream) (a b : Nat) (hd : s1.data = s2.data)
    (hp : s1.pos = s2.pos) (hr : s1.canRead = s2.canRead) :
    (Stream.fread s1 0 a b).val = (Stream.fread s2 0 a b).val ∧
    (Stream.fread s1 0 a b).st.pos = (Stream.fread s2 0 a b).st.pos := by
  unfold Stream.fread
  rw [hd, hp, hr]
  split_ifs
  · exact ⟨rfl, hp⟩
  · exact ⟨rfl, hp⟩
  · exact ⟨rfl, rfl⟩

/-- The discard read of a short forward seek, when the bytes are there. -/
theorem host_discardRead {t : Nat} (hsync : inSync h e) (hcr : e.st.canRead = true)
    (hgt : h.m_nOffset < t) (hlt : t < h.m_nOffset + 4096) (hrem : t ≤ e.st.data.length)
    (hlen : e.st.data.length < 2 ^ 63) :
    (discardRead hostStdio h e t).val.1 = t - h.m_nOffset ∧
    (discardRead hostStdio h e t).env.st.data = e.st.data ∧
    (discardRead hostStdio h e t).env.st.pos = t ∧
    (discardRead hostStdio h e t).env.st.canRead = e.st.canRead ∧
    (discardRead hostStdio h e t).env.st.seekable = e.st.seekable ∧
    (discardRead hostStdio h e t).env.trace = e.trace ++ [Call.fread 1 (t - h.m_nOffset)] := by
  unfold inSync at hsync
  have hd := seekDiff_forward h (Nat.le_of_lt hgt) (show t < 2 ^ 63 by omega)
  have h32 : toInt32 (seekDiff h t) = seekDiff h t := toInt32_of_small (by omega) (by omega)
  have hsz : toSizeT (toInt32 (seekDiff h t)) = t - h.m_nOffset := by
    rw [h32, hd]; unfold toSizeT; omega
  unfold discardRead
  rw [hsz]
  have hlen2 : ((e.st.data.drop e.st.pos).take (1 * (t - h.m_nOffset))).length
      = t - h.m_nOffset := by
    rw [List.length_take, List.length_drop]; omega
  simp only [Env.fread, hostStdio, Stream.fread]
  rw [if_neg (by omega), if_neg (by simp [hcr])]
  simp only [hlen2]
  refine ⟨by simp, trivial, by omega, trivial, trivial, trivial⟩

/-- The native reposition to an absolute offset below 2^63 on a seekable stream. -/
theorem host_SeekNative_set {t : Nat} (hsk : e.st.seekable = true) (ht : t < 2 ^ 63) :
    (SeekNative hostStdio h e t SEEK_SET).ret = 0 ∧
    (SeekNative hostStdio h e t SEEK_SET).h =
      { h with m_nOffset := t, bLastOpWrite := false, bLastOpRead := false } ∧
    (SeekNative hostStdio h e t SEEK_SET).e.st.data = e.st.data ∧
    (SeekNative hostStdio h e t SEEK_SET).e.st.pos = t ∧
    (SeekNative hostStdio h e t SEEK_SET).e.st.canRead = e.st.canRead ∧
    (SeekNative hostStdio h e t SEEK_SET).e.st.seekable = e.st.seekable ∧
    (SeekNative hostStdio h e t SEEK_SET).e.trace = e.trace ++ [Call.fseek t SEEK_SET] := by
  have hf : Stream.fseek e.st e.errno t SEEK_SET =
      { val := 0, st := { e.st with pos := t, eof := false }, errno := e.errno } := by
    unfold Stream.fseek
    rw [if_neg (by simp [hsk]), if_neg (by simp), toGIntBig_of_lt ht]
    have ht2 : ¬ ((0 : Int) + (t : Int) < 0 ∨ (2 : Int) ^ 63 ≤ 0 + (t : Int)) := by omega
    simp only [if_true]
    rw [if_neg ht2]
    simp
  simp only [SeekNative, Env.fseek, hostStdio, Env.vsiDebug, hf]
  simp

/-- A `Read` depends on the environment only through the stream's data, position and
modes, as far as its result and the tracked offset go. -/
theorem host_Read_congr (e2 : Env Stream) (a b : Nat) (hw : h.bLastOpWrite = false)
    (hd : e.st.data = e2.st.data) (hp : e.st.pos = e2.st.pos)
    (hr : e.st.canRead = e2.st.canRead) (hs : e.st.seekable = e2.st.seekable) :
    (h.Read hostStdio e a b).ret = (h.Read hostStdio e2 a b).ret ∧
    (h.Read hostStdio e a b).h.m_nOffset = (h.Read hostStdio e2 a b).h.m_nOffset := by
  obtain ⟨r1, -, r3, -⟩ := host_Read_spec h e a b
  obtain ⟨q1, -, q3, -⟩ := host_Read_spec h e2 a b
  have f1 : flushingSeek hostStdio h.bLastOpWrite h e = e := by rw [hw]; rfl
  have f2 : flushingSeek hostStdio h.bLastOpWrite h e2 = e2 := by rw [hw]; rfl
  rw [f1] at r1 r3
  rw [f2] at q1 q3
  obtain ⟨c1, c2⟩ := Stream.fread_congr e.st e2.st a b hd hp hr
  rw [r1, q1, r3, q3, c1, c2, hs]
  exact ⟨rfl, rfl⟩

theorem Stream.fread_one (s : Stream) (er : Int) (n : Nat) :
    (Stream.fread s er 1 n).st.pos = s.pos + (Stream.fread s er 1 n).val.1 ∧
    (Stream.fread s er 1 n).val.1 ≤ n ∧
    (Stream.fread s er 1 n).st.seekable = s.seekable := by
  unfold Stream.fread
  by_cases hn : (1 = 0 ∨ n = 0)
  · rw [if_pos hn]
    exact ⟨rfl, Nat.zero_le _, rfl⟩
  · rw [if_neg hn]
    by_cases hc : s.canRead = false
    · rw [if_pos hc]
      exact ⟨rfl, Nat.zero_le _, rfl⟩
    · rw [if_neg hc]
      refine ⟨by simp, ?_, rfl⟩
      simp only [Nat.div_one, List.length_take, List.length_drop]
      omega

theorem Stream.fread_full (s : Stream) (a b : Nat) (hfull : (Stream.fread s 0 a b).val.1 = b) :
    (Stream.fread s 0 a b).st.pos = s.pos + a * b := by
  unfold Stream.fread at hfull ⊢
  split_ifs at hfull ⊢ with c1 c2
  · simp only at hfull ⊢
    subst hfull
    simp
  · simp only at hfull ⊢
    subst hfull
    simp
  · simp only at hfull ⊢
    have hle : ((s.data.drop s.pos).take (a * b)).length ≤ a * b := by
      rw [List.length_take]; exact Nat.min_le_left _ _
    have hge : a * b ≤ ((s.data.drop s.pos).take (a * b)).length := by
      have := Nat.div_mul_le_self ((s.data.drop s.pos).take (a * b)).length a
      rw [hfull, Nat.mul_comm] at this
      exact this
    omega

theorem Stream.fread_pos_le (s : Stream) (a b : Nat) :
    (Stream.fread s 0 a b).st.pos ≤ max s.pos s.data.length := by
  unfold Stream.fread
  split_ifs
  · exact le_max_left _ _
  · exact le_max_left _ _
  · simp only [List.length_take, List.length_drop]
    omega

theorem Stream.fseek_cases (s : Stream) (er : Int) (o : Nat) (w : Int)
    (hsk : s.seekable = true) :
    ((Stream.fseek s er o w).val = -1 ∧ (Stream.fseek s er o w).st = s) ∨
    ((Stream.fseek s er o w).val = 0 ∧
      ∃ base : Int,
        (w = SEEK_SET ∧ base = 0 ∨ w = SEEK_CUR ∧ base = s.pos ∨
          w = SEEK_END ∧ base = s.data.length) ∧
        0 ≤ base + toGIntBig o ∧ base + toGIntBig o < 2 ^ 63 ∧
        (Stream.fseek s er o w).st = { s with pos := (base + toGIntBig o).toNat, eof := false }) := by
  unfold Stream.fseek
  rw [if_neg (by simp [hsk])]
  by_cases hw : w ≠ SEEK_SET ∧ w ≠ SEEK_CUR ∧ w ≠ SEEK_END
  · rw [if_pos hw]
    exact Or.inl ⟨rfl, rfl⟩
  · rw [if_neg hw]
    simp only
    by_cases c1 : w = SEEK_SET
    · rw [if_pos c1]
      by_cases c : ((0 : Int) + toGIntBig o < 0 ∨ 2 ^ 63 ≤ (0 : Int) + toGIntBig o)
      · rw [if_pos c]; exact Or.inl ⟨rfl, rfl⟩
      · rw [if_neg c]
        exact Or.inr ⟨rfl, 0, Or.inl ⟨c1, rfl⟩, by omega, by omega, rfl⟩
    · rw [if_neg c1]
      by_cases c2 : w = SEEK_CUR
      · rw [if_pos c2]
        by_cases c : ((s.pos : Int) + toGIntBig o < 0 ∨ 2 ^ 63 ≤ (s.pos : Int) + toGIntBig o)
        · rw [if_pos c]; exact Or.inl ⟨rfl, rfl⟩
        · rw [if_neg c]
          exact Or.inr ⟨rfl, s.pos, Or.inr (Or.inl ⟨c2, rfl⟩), by omega, by omega, rfl⟩
      · rw [if_neg c2]
        have hend : w = SEEK_END := by
          by_contra hne
          exact hw ⟨c1, c2, hne⟩
        by_cases c : ((s.data.length : Int) + toGIntBig o < 0 ∨
            2 ^ 63 ≤ (s.data.length : Int) + toGIntBig o)
        · rw [if_pos c]; exact Or.inl ⟨rfl, rfl⟩
        · rw [if_neg c]
          exact Or.inr ⟨rfl, s.data.length, Or.inr (Or.inr ⟨hend, rfl⟩), by omega, by omega, rfl⟩

theorem host_SeekNative_st (o : Nat) (w : Int) :
    (SeekNative hostStdio h e o w).e.st = (Stream.fseek e.st e.errno o w).st := by
  simp only [SeekNative, Env.fseek, hostStdio, Env.vsiDebug, Env.ftell, Stream.ftell]
  split_ifs <;> rfl

theorem SeekNative_offset {σ : Type} (N : Native σ) (h : VSIUnixStdioHandle) (e : Env σ)
    (o : Nat) (w : Int) :
    (SeekNative N h e o w).h.m_nOffset =
      if (e.fseek N o w).val ≠ -1 then
        if w = SEEK_SET then o
        else if w = SEEK_END then toU64 (((e.fseek N o w).env.vsiDebug N).ftell N).val
        else if w = SEEK_CUR then (h.m_nOffset + o) % 2 ^ 64
        else h.m_nOffset
      else h.m_nOffset := by
  simp only [SeekNative]
  split_ifs <;> rfl

theorem host_SeekNative_offset (o : Nat) (w : Int) (hsk : e.st.seekable = true) :
    (SeekNative hostStdio h e o w).h.m_nOffset =
      if (Stream.fseek e.st e.errno o w).val ≠ -1 then
        if w = SEEK_SET then o
        else if w = SEEK_END then toU64 (Stream.fseek e.st e.errno o w).st.pos
        else if w = SEEK_CUR then (h.m_nOffset + o) % 2 ^ 64
        else h.m_nOffset
      else h.m_nOffset := by
  have hs : (Stream.fseek e.st e.errno o w).st.seekable = true := by
    rcases Stream.fseek_cases e.st e.errno o w hsk with ⟨-, c⟩ | ⟨-, base, -, -, -, c⟩
    · rw [c]; exact hsk
    · rw [c]; exact hsk
  have ht : (((e.fseek hostStdio o w).env.vsiDebug hostStdio).ftell hostStdio).val =
      ((Stream.fseek e.st e.errno o w).st.pos : Int) := by
    simp only [Env.fseek, hostStdio, Env.vsiDebug, Env.ftell, Stream.ftell]
    rw [if_neg (by simp [hs])]
  rw [SeekNative_offset, ht]
  rfl

/-- Over a seekable stream the native path of `Seek` keeps the tracked offset equal to the
native position, for every `whence`. -/
theorem host_SeekNative_sync (o : Nat) (w : Int) (hsync : inSync h e)
    (hsk : e.st.seekable = true) (hpos : e.st.pos < 2 ^ 63) (ho : o < 2 ^ 64) :
    inSync (SeekNative hostStdio h e o w).h (SeekNative hostStdio h e o w).e := by
  unfold inSync at hsync ⊢
  rw [host_SeekNative_st, host_SeekNative_offset h e o w hsk]
  have hg : toGIntBig o = (o : Int) ∨ toGIntBig o = (o : Int) - 2 ^ 64 := by
    by_cases hlt : o < 2 ^ 63
    · exact Or.inl (toGIntBig_of_lt hlt)
    · exact Or.inr (toGIntBig_of_ge (not_lt.mp hlt) ho)
  rcases Stream.fseek_cases e.st e.errno o w hsk with ⟨c1, c2⟩ | ⟨c1, base, hb, b0, b1, c2⟩
  · rw [c1, c2, if_neg (by simp)]
    exact hsync
  · rw [c1, c2, if_pos (by decide)]
    generalize toGIntBig o = g at hg b0 b1
    rcases hb with ⟨hw, hbase⟩ | ⟨hw, hbase⟩ | ⟨hw, hbase⟩
    · subst hw hbase
      rw [if_pos rfl]
      simp only
      omega
    · subst hw hbase
      rw [if_neg (by decide), if_neg (by decide), if_pos rfl]
      simp only
      omega
    · subst hw hbase
      rw [if_neg (by decide), if_pos rfl]
      simp only
      unfold toU64
      omega

theorem seekDiff_guard_forward {o : Nat} (hm : h.m_nOffset + 4096 ≤ 2 ^ 63) (ho : o < 2 ^ 64)
    (h0 : 0 < seekDiff h o) (h1 : seekDiff h o < 4096) :
    h.m_nOffset < o ∧ o < h.m_nOffset + 4096 := by
  unfold seekDiff wrapGIntBig at h0 h1
  rw [toGIntBig_of_lt (show h.m_nOffset < 2 ^ 63 by omega)] at h0 h1
  by_cases hlt : o < 2 ^ 63
  · rw [toGIntBig_of_lt hlt] at h0 h1
    by_cases hle : h.m_nOffset ≤ o
    · have hz : (((o : Int) - (h.m_nOffset : Int)) % 2 ^ 64).toNat = o - h.m_nOffset := by omega
      rw [hz, toGIntBig_of_lt (by omega)] at h0 h1
      omega
    · have hz : (((o : Int) - (h.m_nOffset : Int)) % 2 ^ 64).toNat
          = 2 ^ 64 - (h.m_nOffset - o) := by omega
      rw [hz, toGIntBig_of_ge (by omega) (by omega)] at h0
      omega
  · rw [toGIntBig_of_ge (not_lt.mp hlt) ho] at h0 h1
    have hz : (((o : Int) - 2 ^ 64 - (h.m_nOffset : Int)) % 2 ^ 64).toNat = o - h.m_nOffset := by
      omega
    rw [hz] at h0 h1
    by_cases hs : o - h.m_nOffset < 2 ^ 63
    · rw [toGIntBig_of_lt hs] at h1
      omega
    · rw [toGIntBig_of_ge (not_lt.mp hs) (by omega)] at h0
      omega

/-- Over a seekable stream `Seek` keeps the tracked offset equal to the native position,
for every `whence`, whether or not the discard read is attempted and completes. -/
theorem host_Seek_sync (o : Nat) (w : Int) (hsync : inSync h e) (hsk : e.st.seekable = true)
    (hpos : e.st.pos + 4096 ≤ 2 ^ 63) (ho : o < 2 ^ 64) :
    inSync (h.Seek hostStdio e o w).h (h.Seek hostStdio e o w).e := by
  have hsync0 : inSync (afterClearEof h) e := hsync
  have hm : h.m_nOffset = e.st.pos := hsync
  by_cases h1 : w = SEEK_SET ∧ o = h.m_nOffset
  · rw [Seek_fast hostStdio h e o w h1.1 h1.2]
    exact hsync
  · by_cases h2 : discardGuard h o w
    · obtain ⟨hro, hw, g0, g1⟩ := h2
      subst hw
      have h2 : discardGuard h o SEEK_SET := ⟨hro, rfl, g0, g1⟩
      obtain ⟨f0, f1⟩ := seekDiff_guard_forward h (by omega) ho g0 g1
      have ht : o < 2 ^ 63 := by omega
      obtain ⟨p1, p2, p3⟩ := Stream.fread_one e.st e.errno (toSizeT (toInt32 (seekDiff h o)))
      have hd := seekDiff_forward h (Nat.le_of_lt f0) ht
      have hsz : toSizeT (toInt32 (seekDiff h o)) = o - h.m_nOffset := by
        rw [toInt32_of_small (by omega) (by omega), hd]; unfold toSizeT; omega
      rw [hsz] at p1 p2 p3
      by_cases h3 : toInt32 (discardRead hostStdio h e o).val.1 = toInt32 (seekDiff h o)
      · rw [Seek_discard hostStdio h e o SEEK_SET h1 h2 h3]
        have hk : (Stream.fread e.st e.errno 1 (o - h.m_nOffset)).val.1 = o - h.m_nOffset := by
          have h3b := h3
          unfold discardRead at h3b
          rw [hsz] at h3b
          simp only [Env.fread, hostStdio] at h3b
          rw [toInt32_of_small (by omega) (by omega), toInt32_of_small (by omega) (by omega),
            hd] at h3b
          omega
        unfold inSync discardRead
        rw [hsz]
        simp only [Env.fread, hostStdio]
        rw [p1, hk]
        omega
      · rw [Seek_fallback hostStdio h e o SEEK_SET h1 h2 h3]
        have hsk2 : (discardRead hostStdio h e o).env.st.seekable = true := by
          unfold discardRead
          rw [hsz]
          simp only [Env.fread, hostStdio]
          rw [p3]; exact hsk
        obtain ⟨-, n2, -, n4, -, -, -⟩ :=
          host_SeekNative_set (afterClearEof h) (discardRead hostStdio h e o).env hsk2 ht
        unfold inSync
        rw [n2, n4]
    · rw [Seek_general hostStdio h e o w h1 h2]
      exact host_SeekNative_sync (afterClearEof h) e o w hsync0 hsk (by omega) ho

/-- Over a seekable stream `Read` keeps the tracked offset equal to the native position. -/
theorem host_Read_sync (a b : Nat) (hsync : inSync h e) (hsk : e.st.seekable = true)
    (hpos : e.st.pos < 2 ^ 63) (hlen : e.st.data.length < 2 ^ 63) :
    inSync (h.Read hostStdio e a b).h (h.Read hostStdio e a b).e := by
  have hm : h.m_nOffset = e.st.pos := hsync
  obtain ⟨hd, hp, -, -, -, -⟩ := host_flushingSeek_st h e h.bLastOpWrite hsync (by omega)
  obtain ⟨-, r2, r3, -⟩ := host_Read_spec h e a b
  have hle := Stream.fread_pos_le (flushingSeek hostStdio h.bLastOpWrite h e).st a b
  rw [hd, hp] at hle
  unfold inSync
  rw [r2, r3]
  by_cases hn : (Stream.fread (flushingSeek hostStdio h.bLastOpWrite h e).st 0 a b).val.1 = b
  · rw [if_pos (Or.inl hn)]
    have hfull := Stream.fread_full _ a b hn
    rw [hfull, hp] at hle
    rw [hfull, hp, hn, hm]
    have : e.st.pos + a * b < 2 ^ 64 := by omega
    exact Nat.mod_eq_of_lt this
  · rw [if_neg (by simp only [not_or]; exact ⟨hn, by simp [hsk]⟩)]
    exact toU64_natCast (by omega)

theorem Stream.fwrite_pos (s : Stream) (er : Int) (buf : List Byte) (a b : Nat)
    (happ : s.append = false) (hbuf : a * b ≤ buf.length) :
    (Stream.fwrite s er buf a b).st.pos = s.pos + a * (Stream.fwrite s er buf a b).val ∧
    (Stream.fwrite s er buf a b).val ≤ b := by
  unfold Stream.fwrite
  by_cases hz : a = 0 ∨ b = 0
  · rw [if_pos hz]; exact ⟨rfl, Nat.zero_le _⟩
  · rw [if_neg hz]
    by_cases hc : s.canWrite = false
    · rw [if_pos hc]; exact ⟨rfl, Nat.zero_le _⟩
    · rw [if_neg hc]
      have ha : 0 < a := by omega
      have hl : (buf.take (a * b)).length = a * b := by
        rw [List.length_take]; omega
      simp only [hl, happ, Nat.mul_div_cancel_left b ha]
      exact ⟨by simp, Nat.le_refl _⟩

/-- Over a stream not in append mode `Write` of a buffer that holds the elements keeps the
tracked offset equal to the native position. -/
theorem host_Write_sync (buf : List Byte) (a b : Nat) (hsync : inSync h e)
    (happ : e.st.append = false) (hbuf : a * b ≤ buf.length)
    (hpos : e.st.pos + a * b < 2 ^ 64) :
    inSync (h.Write hostStdio e buf a b).h (h.Write hostStdio e buf a b).e := by
  have hm : h.m_nOffset = e.st.pos := hsync
  obtain ⟨-, hp, -, -, ha, -⟩ := host_flushingSeek_st h e h.bLastOpRead hsync (by omega)
  obtain ⟨w1, w2⟩ := Stream.fwrite_pos (flushingSeek hostStdio h.bLastOpRead h e).st
    (flushingSeek hostStdio h.bLastOpRead h e).errno buf a b (by rw [ha]; exact happ) hbuf
  have hfw : hostStdio.fwrite = Stream.fwrite := rfl
  unfold inSync
  simp only [Write, Env.fwrite, Nat.add_mod_mod, hfw]
  rw [w1, hp, hm]
  have hle : a * (Stream.fwrite (flushingSeek hostStdio h.bLastOpRead h e).st
      (flushingSeek hostStdio h.bLastOpRead h e).errno buf a b).val ≤ a * b :=
    Nat.mul_le_mul_left a w2
  exact Nat.mod_eq_of_lt (by omega)

theorem Stream.overwrite_prefix_length (data : List Byte) (off : Nat) :
    ((data ++ List.replicate (off - data.length) 0).take off).length = off := by
  rw [List.length_take, List.length_append, List.length_replicate]
  omega

theorem Stream.overwrite_drop_take (data : List Byte) (off : Nat) (bytes : List Byte) :
    ((Stream.overwrite data off bytes).drop off).take bytes.length = bytes := by
  unfold Stream.overwrite
  rw [List.append_assoc,
    List.drop_left' (Stream.overwrite_prefix_length data off), List.take_left' rfl]

theorem Stream.overwrite_drop_past (data : List Byte) (off : Nat) (bytes : List Byte) :
    (Stream.overwrite data off bytes).drop (off + bytes.length)
      = data.drop (off + bytes.length) := by
  unfold Stream.overwrite
  rw [List.drop_left' (by rw [List.length_append, Stream.overwrite_prefix_length])]

theorem Stream.fread_bytes (s : Stream) (n : Nat) (hn : 0 < n) (hcr : s.canRead = true) :
    (Stream.fread s 0 1 n).val =
      (((s.data.drop s.pos).take n).length, (s.data.drop s.pos).take n) := by
  unfold Stream.fread
  rw [if_neg (by omega), if_neg (by simp [hcr])]
  simp

/-- What `Write` of the non-empty byte string `b` does on a writable stream that is not in
append mode, from a synchronised handle. -/
theorem host_Write_bytes (b : List Byte) (hsync : inSync h e) (hcw : e.st.canWrite = true)
    (happ : e.st.append = false) (hne : b ≠ []) (hpos : e.st.pos + b.length < 2 ^ 63) :
    (h.Write hostStdio e b 1 b.length).ret = b.length ∧
    (h.Write hostStdio e b 1 b.length).h.m_nOffset = h.m_nOffset + b.length ∧
    (h.Write hostStdio e b 1 b.length).h.bReadOnly = h.bReadOnly ∧
    (h.Write hostStdio e b 1 b.length).e.st.data = Stream.overwrite e.st.data h.m_nOffset b ∧
    (h.Write hostStdio e b 1 b.length).e.st.pos = h.m_nOffset + b.length ∧
    (h.Write hostStdio e b 1 b.length).e.st.canRead = e.st.canRead ∧
    (h.Write hostStdio e b 1 b.length).e.st.seekable = e.st.seekable := by
  have hm : h.m_nOffset = e.st.pos := hsync
  have hlen : 0 < b.length := List.length_pos.mpr hne
  obtain ⟨hd, hp, hr, hw, ha, hs⟩ := host_flushingSeek_st h e h.bLastOpRead hsync (by omega)
  have hfw : hostStdio.fwrite = Stream.fwrite := rfl
  have hf : Stream.fwrite (flushingSeek hostStdio h.bLastOpRead h e).st
      (flushingSeek hostStdio h.bLastOpRead h e).errno b 1 b.length =
      { val := b.length
        st := { (flushingSeek hostStdio h.bLastOpRead h e).st with
                data := Stream.overwrite e.st.data h.m_nOffset b
                pos := h.m_nOffset + b.length }
        errno := (flushingSeek hostStdio h.bLastOpRead h e).errno } := by
    unfold Stream.fwrite
    rw [if_neg (by omega), if_neg (by rw [hw]; simp [hcw])]
    simp only [Nat.one_mul, List.take_length, Nat.div_one, ha, happ, hd, hp, hm]
    simp
  simp only [Write, Env.fwrite, hfw, hf, Nat.add_mod_mod]
  refine ⟨trivial, ?_, trivial, trivial, trivial, hr, hs⟩
  rw [Nat.one_mul]
  exact Nat.mod_eq_of_lt (by omega)

end Host

/-! ## The native path of `Seek` and the trace of `Read` -/

section NativePath

open VSIUnixStdioHandle

variable {σ : Type} (N : Native σ) (h : VSIUnixStdioHandle) (e : Env σ) (o : Nat) (w : Int)

theorem Seek_of_reachesNative (hr : reachesNative N h e o w) :
    h.Seek N e o w = SeekNative N (afterClearEof h) (envAtReposition N h e o w) o w := by
  obtain ⟨h1, h2⟩ := hr
  unfold envAtReposition
  by_cases hg : discardGuard h o w
  · rw [if_pos hg]
    exact Seek_fallback N h e o w h1 hg (fun h3 => h2 ⟨hg, h3⟩)
  · rw [if_neg hg]
    exact Seek_general N h e o w h1 hg

theorem SeekNative_bAtEOF : (SeekNative N h e o w).h.bAtEOF = h.bAtEOF := by
  simp only [SeekNative]
  split_ifs <;> rfl

theorem SeekNative_trace :
    (SeekNative N h e o w).e.trace =
      e.trace ++ [Call.fseek o w] ++
        (if (e.fseek N o w).val ≠ -1 ∧ w = SEEK_END then [Call.ftell] else []) := by
  simp only [SeekNative]
  by_cases hv : (e.fseek N o w).val ≠ -1
  · rw [if_pos hv]
    by_cases h1 : w = SEEK_SET
    · have hne : ¬ w = SEEK_END := by rw [h1]; decide
      rw [if_pos h1, if_neg (fun hc => hne hc.2)]
      simp [Env.fseek, Env.vsiDebug]
    · rw [if_neg h1]
      by_cases h2 : w = SEEK_END
      · rw [if_pos h2, if_pos ⟨hv, h2⟩]
        simp [Env.fseek, Env.vsiDebug, Env.ftell]
      · have hne : ¬ ((e.fseek N o w).val ≠ -1 ∧ w = SEEK_END) := fun hc => h2 hc.2
        rw [if_neg h2, if_neg hne]
        split_ifs <;> simp [Env.fseek, Env.vsiDebug]
  · have hne : ¬ ((e.fseek N o w).val ≠ -1 ∧ w = SEEK_END) := fun hc => hv hc.1
    rw [if_neg hv, if_neg hne]
    simp [Env.fseek, Env.vsiDebug]

theorem SeekNative_offset_of_fail (hv : (e.fseek N o w).val = -1) :
    (SeekNative N h e o w).h.m_nOffset = h.m_nOffset := by
  rw [SeekNative_offset, if_neg (by simp [hv])]

theorem Read_trace (a b : Nat) :
    (h.Read N e a b).e.trace =
      e.trace ++ (if h.bLastOpWrite = true then [Call.fseek h.m_nOffset SEEK_SET] else []) ++
        [Call.fread a b] ++
        (if ((flushingSeek N h.bLastOpWrite h e).fread N a b).val.1 ≠ b then
          [Call.ftell, Call.feof] else []) := by
  have hfl : (flushingSeek N h.bLastOpWrite h e).trace =
      e.trace ++ (if h.bLastOpWrite = true then [Call.fseek h.m_nOffset SEEK_SET] else []) := by
    unfold flushingSeek
    split_ifs <;> simp [Env.fseek, Env.vsiDebug]
  have hres : ∀ (h1 : VSIUnixStdioHandle) (e1 : Env σ),
      (ReadResync N h1 e1).2.trace = e1.trace ++ [Call.ftell, Call.feof] := by
    intro h1 e1
    simp only [ReadResync, Env.feof, Env.ftell, Env.cplDebug]
    split_ifs <;> simp
  unfold Read
  simp only
  by_cases hn : ((flushingSeek N h.bLastOpWrite h e).fread N a b).val.1 ≠ b
  · rw [if_pos hn, if_pos hn]
    simp only [hres, Env.fread, hfl]
  · rw [if_neg hn, if_neg hn]
    simp only [Env.fread, hfl, List.append_nil]

theorem issuedSince_append (e1 : Env σ) (l : List Call) (ht : e1.trace = e.trace ++ l) :
    issuedSince e e1 = l := by
  unfold issuedSince
  rw [ht, List.drop_left]

theorem CPLStringList.foldl_AddString (entries acc : List String) :
    entries.foldl CPLStringList.AddString { papszList := some acc } =
      { papszList := some (acc ++ entries) } := by
  induction entries generalizing acc with
  | nil => simp
  | cons d rest ih =>
    simp only [List.foldl_cons, CPLStringList.AddString, Option.getD_some]
    rw [ih]
    simp

theorem seekDiff_eq_subU64 (hm : h.m_nOffset < 2 ^ 64) (ho : o < 2 ^ 64) :
    seekDiff h o = toGIntBig (subU64 o h.m_nOffset) := by
  unfold seekDiff wrapGIntBig subU64 toU64
  have h1 : toGIntBig o = (o : Int) ∨ toGIntBig o = (o : Int) - 2 ^ 64 := by
    by_cases hlt : o < 2 ^ 63
    · exact Or.inl (toGIntBig_of_lt hlt)
    · exact Or.inr (toGIntBig_of_ge (not_lt.mp hlt) ho)
  have h2 : toGIntBig h.m_nOffset = (h.m_nOffset : Int) ∨
      toGIntBig h.m_nOffset = (h.m_nOffset : Int) - 2 ^ 64 := by
    by_cases hlt : h.m_nOffset < 2 ^ 63
    · exact Or.inl (toGIntBig_of_lt hlt)
    · exact Or.inr (toGIntBig_of_ge (not_lt.mp hlt) hm)
  have key : (toGIntBig o - toGIntBig h.m_nOffset) % 2 ^ 64
      = ((o : Int) - (h.m_nOffset : Int)) % 2 ^ 64 := by
    rcases h1 with h1 | h1 <;> rcases h2 with h2 | h2 <;> rw [h1, h2] <;> omega
  rw [key]

/-- The guard of the discard read, in terms of the unsigned 64-bit difference of the two
offsets. -/
theorem discardGuard_iff (hm : h.m_nOffset < 2 ^ 64) (ho : o < 2 ^ 64) :
    discardGuard h o w ↔
      (h.bReadOnly = true ∧ w = SEEK_SET ∧ 0 < subU64 o h.m_nOffset ∧
        subU64 o h.m_nOffset < 4096) := by
  have hlt : subU64 o h.m_nOffset < 2 ^ 64 := by unfold subU64 toU64; omega
  unfold discardGuard
  rw [seekDiff_eq_subU64 h o hm ho]
  by_cases hs : subU64 o h.m_nOffset < 2 ^ 63
  · rw [toGIntBig_of_lt hs]
    constructor
    · rintro ⟨a, b, c, d⟩; exact ⟨a, b, by omega, by omega⟩
    · rintro ⟨a, b, c, d⟩; exact ⟨a, b, by omega, by omega⟩
  · rw [toGIntBig_of_ge (not_lt.mp hs) hlt]
    constructor
    · rintro ⟨a, b, c, d⟩; omega
    · rintro ⟨a, b, c, d⟩; omega

/-- Under the guard the discard read asks for the unsigned 64-bit difference. -/
theorem discardRead_request (hm : h.m_nOffset < 2 ^ 64) (ho : o < 2 ^ 64)
    (hg : discardGuard h o w) :
    seekDiff h o = (subU64 o h.m_nOffset : Int) ∧
    toInt32 (seekDiff h o) = (subU64 o h.m_nOffset : Int) ∧
    toSizeT (toInt32 (seekDiff h o)) = subU64 o h.m_nOffset ∧
    discardRead N h e o = e.fread N 1 (subU64 o h.m_nOffset) := by
  obtain ⟨-, -, c, d⟩ := (discardGuard_iff h o w hm ho).mp hg
  have h1 : seekDiff h o = (subU64 o h.m_nOffset : Int) := by
    rw [seekDiff_eq_subU64 h o hm ho, toGIntBig_of_lt (by omega)]
  have h2 : toInt32 (seekDiff h o) = (subU64 o h.m_nOffset : Int) := by
    rw [h1]; exact toInt32_of_small (by omega) (by omega)
  have h3 : toSizeT (toInt32 (seekDiff h o)) = subU64 o h.m_nOffset := by
    rw [h2]; unfold toSizeT; omega
  refine ⟨h1, h2, h3, ?_⟩
  unfold discardRead
  rw [h3]

theorem subU64_self (x : Nat) : subU64 x x = 0 := by
  unfold subU64 toU64
  simp

/-- The calls issued by `Seek` when the guard of the discard read holds. -/
theorem Seek_issued_of_guard (hm : h.m_nOffset < 2 ^ 64) (ho : o < 2 ^ 64)
    (hg : discardGuard h o w) :
    (toInt32 (e.fread N 1 (subU64 o h.m_nOffset)).val.1 = (subU64 o h.m_nOffset : Int) →
      h.Seek N e o w =
        { ret := 0
          h := { afterClearEof h with m_nOffset := o, bLastOpWrite := false,
                                      bLastOpRead := false }
          e := (e.fread N 1 (subU64 o h.m_nOffset)).env } ∧
      issuedSince e (h.Seek N e o w).e = [Call.fread 1 (subU64 o h.m_nOffset)]) ∧
    (toInt32 (e.fread N 1 (subU64 o h.m_nOffset)).val.1 ≠ (subU64 o h.m_nOffset : Int) →
      h.Seek N e o w =
        SeekNative N (afterClearEof h) (e.fread N 1 (subU64 o h.m_nOffset)).env o w ∧
      issuedSince e (h.Seek N e o w).e =
        [Call.fread 1 (subU64 o h.m_nOffset), Call.fseek o w]) := by
  obtain ⟨d1, d2, -, d4⟩ := discardRead_request N h e o w hm ho hg
  obtain ⟨-, hw, c, -⟩ := (discardGuard_iff h o w hm ho).mp hg
  have h1 : ¬ (w = SEEK_SET ∧ o = h.m_nOffset) := by
    rintro ⟨-, hc⟩
    rw [hc, subU64_self] at c
    exact Nat.lt_irrefl 0 c
  have hne : ¬ w = SEEK_END := by rw [hw]; decide
  refine ⟨?_, ?_⟩
  · intro h3
    have h3b : toInt32 (discardRead N h e o).val.1 = toInt32 (seekDiff h o) := by
      rw [d4, d2]; exact h3
    have hS := Seek_discard N h e o w h1 hg h3b
    rw [d4] at hS
    refine ⟨hS, ?_⟩
    apply issuedSince_append
    rw [hS]
    rfl
  · intro h3
    have h3b : ¬ toInt32 (discardRead N h e o).val.1 = toInt32 (seekDiff h o) := by
      rw [d4, d2]; exact h3
    have hS := Seek_fallback N h e o w h1 hg h3b
    rw [d4] at hS
    refine ⟨hS, ?_⟩
    apply issuedSince_append
    rw [hS, SeekNative_trace, if_neg (fun hc => hne hc.2)]
    simp [Env.fread]

/-- The calls issued by `Seek` when the guard of the discard read does not hold: none, or
the native reposition call, followed by the position query for `SEEK_END`. -/
theorem Seek_issued_of_not_guard (hg : ¬ discardGuard h o w) :
    issuedSince e (h.Seek N e o w).e = [] ∨
    issuedSince e (h.Seek N e o w).e = [Call.fseek o w] ∨
    issuedSince e (h.Seek N e o w).e = [Call.fseek o w, Call.ftell] := by
  by_cases h1 : w = SEEK_SET ∧ o = h.m_nOffset
  · left
    apply issuedSince_append
    rw [Seek_fast N h e o w h1.1 h1.2]
    simp
  · right
    rw [Seek_general N h e o w h1 hg]
    by_cases hc : (e.fseek N o w).val ≠ -1 ∧ w = SEEK_END
    · right
      apply issuedSince_append
      rw [SeekNative_trace, if_pos hc, List.append_assoc]
      rfl
    · left
      apply issuedSince_append
      rw [SeekNative_trace, if_neg hc, List.append_nil]

theorem Stream.fseek_set_ok (s : Stream) (er : Int) (t : Nat) (ht : t < 2 ^ 64)
    (hok : (Stream.fseek s er t SEEK_SET).val = 0) :
    (Stream.fseek s er t SEEK_SET).st = { s with pos := t, eof := false } := by
  have hsk : s.seekable = true := by
    by_contra hc
    unfold Stream.fseek at hok
    rw [if_pos (by simpa using hc)] at hok
    simp at hok
  rcases Stream.fseek_cases s er t SEEK_SET hsk with ⟨c1, -⟩ | ⟨-, base, hb, b0, b1, c2⟩
  · rw [hok] at c1
    exact absurd c1 (by decide)
  · have hbase : base = 0 := by
      rcases hb with ⟨-, hb⟩ | ⟨hw, -⟩ | ⟨hw, -⟩
      · exact hb
      · exact absurd hw (by decide)
      · exact absurd hw (by decide)
    subst hbase
    rw [c2]
    by_cases hlt : t < 2 ^ 63
    · rw [toGIntBig_of_lt hlt]
      simp
    · rw [toGIntBig_of_ge (not_lt.mp hlt) ht] at b0
      omega

theorem Stream.fread_val (s : Stream) (a b : Nat) (ha : 0 < a) (hb : 0 < b)
    (hcr : s.canRead = true) :
    (Stream.fread s 0 a b).val =
      (((s.data.drop s.pos).take (a * b)).length / a, (s.data.drop s.pos).take (a * b)) := by
  unfold Stream.fread
  rw [if_neg (by omega), if_neg (by simp [hcr])]

theorem Seek_flags_cases :
    (h.Seek N e o w).h.bLastOpWrite = h.bLastOpWrite ∧
      (h.Seek N e o w).h.bLastOpRead = h.bLastOpRead ∨
    (h.Seek N e o w).h.bLastOpWrite = false ∧ (h.Seek N e o w).h.bLastOpRead = false := by
  by_cases h1 : w = SEEK_SET ∧ o = h.m_nOffset
  · left
    rw [Seek_fast N h e o w h1.1 h1.2]
    exact ⟨rfl, rfl⟩
  · right
    by_cases h2 : discardGuard h o w
    · by_cases h3 : toInt32 (discardRead N h e o).val.1 = toInt32 (seekDiff h o)
      · rw [Seek_discard N h e o w h1 h2 h3]
        exact ⟨rfl, rfl⟩
      · rw [Seek_fallback N h e o w h1 h2 h3]
        exact SeekNative_flags N _ _ o w
    · rw [Seek_general N h e o w h1 h2]
      exact SeekNative_flags N _ _ o w

theorem flagsExclusive_step (s : Sys σ) (hinv : flagsExclusive s.h) (op : Op) :
    flagsExclusive (s.step N op).h := by
  unfold flagsExclusive at hinv ⊢
  cases op with
  | seek o w =>
    simp only [Sys.step]
    rcases Seek_flags_cases N s.h s.e o w with ⟨c1, c2⟩ | ⟨c1, -⟩
    · rw [c1, c2]; exact hinv
    · rw [c1]; simp
  | tell => exact hinv
  | eof => exact hinv
  | read a b =>
    simp only [Sys.step]
    rw [(Read_flags N s.h s.e a b).2]
    simp
  | write buf a b =>
    simp only [Sys.step, Write]
    simp
  | flush => exact hinv
  | truncate n => exact hinv

theorem flagsExclusive_run (ops : List Op) (s : Sys σ) (hinv : flagsExclusive s.h) :
    flagsExclusive (s.run N ops).h := by
  induction ops generalizing s with
  | nil => exact hinv
  | cons op rest ih => exact ih (s.step N op) (flagsExclusive_step N s hinv op)

theorem Write_trace (buf : List Byte) (a b : Nat) :
    (h.Write N e buf a b).e.trace =
      e.trace ++ (if h.bLastOpRead = true then [Call.fseek h.m_nOffset SEEK_SET] else []) ++
        [Call.fwrite a b] := by
  have hfl : (flushingSeek N h.bLastOpRead h e).trace =
      e.trace ++ (if h.bLastOpRead = true then [Call.fseek h.m_nOffset SEEK_SET] else []) := by
    unfold flushingSeek
    split_ifs <;> simp [Env.fseek, Env.vsiDebug]
  simp only [Write, Env.fwrite, hfl]

end NativePath

/-! ## Theorems -/

open VSIUnixStdioHandle

/-- C1: whenever `Seek(o, SEEK_SET)` returns 0, `Tell()` called right after returns `o`;
this holds for every handle state and every behaviour of the native calls, on the no-op
fast path, the discard-read path and the native reposition path alike. -/
theorem Seek_set_success_then_Tell {σ : Type} (N : Native σ) (h : VSIUnixStdioHandle)
    (e : Env σ) (o : Nat) (hok : (h.Seek N e o SEEK_SET).ret = 0) :
    (h.Seek N e o SEEK_SET).h.Tell = o := by
  simp only [Tell]
  by_cases h1 : SEEK_SET = SEEK_SET ∧ o = h.m_nOffset
  · rw [Seek_fast N h e o SEEK_SET h1.1 h1.2]; exact h1.2.symm
  · by_cases h2 : discardGuard h o SEEK_SET
    · by_cases h3 : toInt32 (discardRead N h e o).val.1 = toInt32 (seekDiff h o)
      · rw [Seek_discard N h e o SEEK_SET h1 h2 h3]
      · rw [Seek_fallback N h e o SEEK_SET h1 h2 h3] at hok ⊢
        rw [SeekNative_ret] at hok
        exact SeekNative_set_ok N _ _ o (by rw [hok]; decide)
    · rw [Seek_general N h e o SEEK_SET h1 h2] at hok ⊢
      rw [SeekNative_ret] at hok
      exact SeekNative_set_ok N _ _ o (by rw [hok]; decide)

/-- Witness for C1: on a three-byte file a successful `Seek(2, SEEK_SET)` of a fresh
read/write handle is followed by `Tell() = 2`. -/
theorem Seek_set_success_then_Tell_witness :
    ((VSIUnixStdioHandle.new false).Seek hostStdio
        (Env.start ⟨[1, 2, 3], 0, false, true, true, false, true⟩) 2 SEEK_SET).ret = 0 ∧
    ((VSIUnixStdioHandle.new false).Seek hostStdio
        (Env.start ⟨[1, 2, 3], 0, false, true, true, false, true⟩) 2 SEEK_SET).h.Tell = 2 :=
  ⟨by decide, Seek_set_success_then_Tell hostStdio (VSIUnixStdioHandle.new false)
      (Env.start ⟨[1, 2, 3], 0, false, true, true, false, true⟩) 2 (by decide)⟩

/-- C7: for every handle state, `Seek(m_nOffset, SEEK_SET)` returns 0, leaves the
environment untouched (so no `fseek`, `fread` or `ftell` is added to the trace, and the
stream and `errno` are as before) and leaves the tracked offset unchanged. -/
theorem Seek_to_current_offset_is_noop {σ : Type} (N : Native σ) (h : VSIUnixStdioHandle)
    (e : Env σ) :
    (h.Seek N e h.m_nOffset SEEK_SET).ret = 0 ∧
    (h.Seek N e h.m_nOffset SEEK_SET).e = e ∧
    (h.Seek N e h.m_nOffset SEEK_SET).e.trace = e.trace ∧
    (h.Seek N e h.m_nOffset SEEK_SET).h.m_nOffset = h.m_nOffset ∧
    (h.Seek N e h.m_nOffset SEEK_SET).h.Tell = h.Tell := by
  rw [Seek_fast N h e h.m_nOffset SEEK_SET rfl rfl]
  exact ⟨rfl, rfl, rfl, rfl, rfl⟩

/-- C8: `Read(buffer, nSize, nCount)` returns exactly the element count `n` that the
native read returned and leaves `lastOperation = Read`; when `n = nCount` the tracked
offset has advanced by `nSize * n` in unsigned 64-bit arithmetic and `bAtEOF` is
unchanged. -/
theorem Read_returns_native_count {σ : Type} (N : Native σ) (h : VSIUnixStdioHandle)
    (e : Env σ) (nSize nCount : Nat) :
    (h.Read N e nSize nCount).ret.1 =
        ((flushingSeek N h.bLastOpWrite h e).fread N nSize nCount).val.1 ∧
    (h.Read N e nSize nCount).h.bLastOpRead = true ∧
    (h.Read N e nSize nCount).h.bLastOpWrite = false ∧
    (((flushingSeek N h.bLastOpWrite h e).fread N nSize nCount).val.1 = nCount →
      (h.Read N e nSize nCount).h.m_nOffset
          = (h.m_nOffset + nSize * ((flushingSeek N h.bLastOpWrite h e).fread N nSize
              nCount).val.1) % 2 ^ 64 ∧
      (h.Read N e nSize nCount).h.bAtEOF = h.bAtEOF) := by
  refine ⟨?_, ?_, ?_, ?_⟩
  · unfold Read; simp only; split_ifs <;> rfl
  · unfold Read ReadResync; simp only; split_ifs <;> rfl
  · unfold Read ReadResync; simp only; split_ifs <;> rfl
  · intro hn
    unfold Read; simp only
    rw [if_neg (not_not.mpr hn)]
    exact ⟨by simp only [Nat.add_mod_mod], rfl⟩

/-- Witness for C8: a fresh handle reads two one-byte elements of a three-byte file. -/
theorem Read_returns_native_count_witness :
    ((VSIUnixStdioHandle.new true).Read hostStdio
        (Env.start ⟨[7, 8, 9], 0, false, true, false, false, true⟩) 1 2).ret = (2, [7, 8]) ∧
    ((VSIUnixStdioHandle.new true).Read hostStdio
        (Env.start ⟨[7, 8, 9], 0, false, true, false, false, true⟩) 1 2).h.m_nOffset = 2 ∧
    ((VSIUnixStdioHandle.new true).Read hostStdio
        (Env.start ⟨[7, 8, 9], 0, false, true, false, false, true⟩) 1 2).h.bAtEOF = 0 :=
  ⟨by decide,
   ((Read_returns_native_count hostStdio (VSIUnixStdioHandle.new true)
      (Env.start ⟨[7, 8, 9], 0, false, true, false, false, true⟩) 1 2).2.2.2 (by decide)).1.trans
        (by decide),
   ((Read_returns_native_count hostStdio (VSIUnixStdioHandle.new true)
      (Env.start ⟨[7, 8, 9], 0, false, true, false, false, true⟩) 1 2).2.2.2 (by decide)).2⟩

/-- C9: for a `Read` whose native read returned fewer elements than requested: when the
native position query succeeds (`errno`, zeroed before `ftell`, is still zero after it)
the tracked offset is the queried position (as a `vsi_l_offset`); when it fails the
tracked offset is the offset before the read plus `nSize * n` (unsigned 64-bit) and
`Read` still returns `n`; in both cases `bAtEOF` is what `feof` returns on the stream. -/
theorem Read_short_resynchronises {σ : Type} (N : Native σ) (h : VSIUnixStdioHandle)
    (e : Env σ) (nSize nCount : Nat)
    (hshort : ((flushingSeek N h.bLastOpWrite h e).fread N nSize nCount).val.1 ≠ nCount) :
    ((Env.ftell N { ((flushingSeek N h.bLastOpWrite h e).fread N nSize nCount).env with
          errno := 0 }).env.errno = 0 →
      (h.Read N e nSize nCount).h.m_nOffset =
        toU64 (Env.ftell N { ((flushingSeek N h.bLastOpWrite h e).fread N nSize nCount).env with
          errno := 0 }).val) ∧
    ((Env.ftell N { ((flushingSeek N h.bLastOpWrite h e).fread N nSize nCount).env with
          errno := 0 }).env.errno ≠ 0 →
      (h.Read N e nSize nCount).h.m_nOffset =
        (h.m_nOffset + nSize * ((flushingSeek N h.bLastOpWrite h e).fread N nSize
          nCount).val.1) % 2 ^ 64) ∧
    (h.Read N e nSize nCount).ret.1 =
      ((flushingSeek N h.bLastOpWrite h e).fread N nSize nCount).val.1 ∧
    (h.Read N e nSize nCount).h.bAtEOF =
      N.feof (Env.ftell N { ((flushingSeek N h.bLastOpWrite h e).fread N nSize nCount).env with
          errno := 0 }).env.st := by
  refine ⟨?_, ?_, ?_, ?_⟩
  · intro hz
    unfold Read; simp only
    rw [if_pos hshort]
    simp only [ReadResync, if_pos hz]
  · intro hnz
    unfold Read; simp only
    rw [if_pos hshort]
    simp only [ReadResync, if_neg hnz, Nat.add_mod_mod]
  · unfold Read; simp only
    rw [if_pos hshort]
  · unfold Read; simp only
    rw [if_pos hshort]
    simp only [ReadResync, Env.feof]
    split_ifs <;> rfl

/-- Witness for C9: a read of four bytes at offset 0 of a three-byte pipe is short, the
position query fails, and the tracked offset is the bookkeeping value 3. -/
theorem Read_short_resynchronises_witness :
    ((VSIUnixStdioHandle.new true).Read hostStdio
        (Env.start ⟨[7, 8, 9], 0, false, true, false, false, false⟩) 1 4).h.m_nOffset = 3 ∧
    ((VSIUnixStdioHandle.new true).Read hostStdio
        (Env.start ⟨[7, 8, 9], 0, false, true, false, false, false⟩) 1 4).ret.1 = 3 ∧
    ((VSIUnixStdioHandle.new true).Read hostStdio
        (Env.start ⟨[7, 8, 9], 0, false, true, false, false, false⟩) 1 4).h.bAtEOF = 1 :=
  ⟨((Read_short_resynchronises hostStdio (VSIUnixStdioHandle.new true)
      (Env.start ⟨[7, 8, 9], 0, false, true, false, false, false⟩) 1 4 (by decide)).2.1
        (by decide)).trans (by decide),
   ((Read_short_resynchronises hostStdio (VSIUnixStdioHandle.new true)
      (Env.start ⟨[7, 8, 9], 0, false, true, false, false, false⟩) 1 4 (by decide)).2.2.1).trans
        (by decide),
   ((Read_short_resynchronises hostStdio (VSIUnixStdioHandle.new true)
      (Env.start ⟨[7, 8, 9], 0, false, true, false, false, false⟩) 1 4 (by decide)).2.2.2).trans
        (by decide)⟩

/-- C10: `Write(buffer, nSize, nCount)` returns exactly the element count `n` that the
native write returned, advances the tracked offset by `nSize * n` in unsigned 64-bit
arithmetic, leaves `lastOperation = Write` and does not change `bAtEOF`. -/
theorem Write_returns_native_count {σ : Type} (N : Native σ) (h : VSIUnixStdioHandle)
    (e : Env σ) (pBuffer : List Byte) (nSize nCount : Nat) :
    (h.Write N e pBuffer nSize nCount).ret =
        ((flushingSeek N h.bLastOpRead h e).fwrite N pBuffer nSize nCount).val ∧
    (h.Write N e pBuffer nSize nCount).h.m_nOffset =
        (h.m_nOffset + nSize * ((flushingSeek N h.bLastOpRead h e).fwrite N pBuffer nSize
          nCount).val) % 2 ^ 64 ∧
    (h.Write N e pBuffer nSize nCount).h.bLastOpWrite = true ∧
    (h.Write N e pBuffer nSize nCount).h.bLastOpRead = false ∧
    (h.Write N e pBuffer nSize nCount).h.bAtEOF = h.bAtEOF := by
  refine ⟨rfl, ?_, rfl, rfl, rfl⟩
  simp only [Write, Nat.add_mod_mod]

/-- C2, refuted as stated: on a read-only handle, `Write` followed by a short forward
`Seek(1, SEEK_SET)` yields the trace `fwrite, fread`: the discard read of `Seek` is issued
directly after the native write, with no `fseek` between them. -/
theorem read_only_Write_then_Seek_unguarded :
    (Sys.run hostStdio
        ⟨VSIUnixStdioHandle.new true, Env.start ⟨[1, 2, 3], 0, false, true, false, false, true⟩⟩
        [Op.write [5] 1 1, Op.seek 1 SEEK_SET]).e.trace = [Call.fwrite 1 1, Call.fread 1 1] ∧
    ¬ switchesGuarded (Sys.run hostStdio
        ⟨VSIUnixStdioHandle.new true, Env.start ⟨[1, 2, 3], 0, false, true, false, false, true⟩⟩
        [Op.write [5] 1 1, Op.seek 1 SEEK_SET]).e.trace := by
  decide

/-- C2, amended: for every sequence of Seek/Tell/Read/Write/Eof/Flush/Truncate calls on a
handle that is not read-only, and for every such sequence without a `Write` on a
read-only handle, whatever the native calls do, the trace never contains a native read
directly after a native write, nor a native write directly after a native read, without
an `fseek` between them. -/
theorem switches_guarded_of_writable_or_no_Write {σ : Type} (N : Native σ)
    (h : VSIUnixStdioHandle) (st : σ) (errno : Int) (ops : List Op)
    (hyp : h.bReadOnly = false ∨ ∀ op ∈ ops, op.isWrite = false) :
    switchesGuarded
      (Sys.run N { h := h, e := { st := st, errno := errno, trace := [] } } ops).e.trace := by
  have hrd : (scanTrace ([] : List Call)).last ≠ some Dir.rd := by decide
  have hwr : (scanTrace ([] : List Call)).last ≠ some Dir.wr := by decide
  rcases hyp with hrw | hops
  · exact (flagsTrackTrace_run N ops { h := h, e := { st := st, errno := errno, trace := [] } }
      hrw ⟨rfl, fun hc => absurd hc hwr, fun hc => absurd hc hrd⟩).1
  · exact (noWritePending_run N ops { h := h, e := { st := st, errno := errno, trace := [] } }
      ⟨rfl, hwr⟩ hops).1

/-- Witness for C2 (amended): a read/write handle on a three-byte file, written, read,
sought and written again. -/
theorem switches_guarded_witness :
    (VSIUnixStdioHandle.new false).bReadOnly = false ∧
    switchesGuarded
      (Sys.run hostStdio
        { h := VSIUnixStdioHandle.new false
          e := { st := ⟨[1, 2, 3], 0, false, true, true, false, true⟩, errno := 0, trace := [] } }
        [Op.write [5] 1 1, Op.read 1 1, Op.flush, Op.write [6] 1 1, Op.seek 2 SEEK_SET,
         Op.read 1 4, Op.truncate 2, Op.write [7] 1 1]).e.trace :=
  ⟨rfl, switches_guarded_of_writable_or_no_Write hostStdio (VSIUnixStdioHandle.new false)
      ⟨[1, 2, 3], 0, false, true, true, false, true⟩ 0 _ (Or.inl rfl)⟩

/-- C6: on a readable stream, a `Read` of elements of positive size that requests more
elements than remain before the end of the file returns fewer elements than requested
and leaves `Eof()` true; a further `Read` with `nCount > 0` returns 0 elements, leaves
`Tell()` unchanged and `Eof()` true. -/
theorem Read_past_end_then_Read_again (h : VSIUnixStdioHandle) (e : Env Stream)
    (nSize nCount nSize2 nCount2 : Nat)
    (hcr : e.st.canRead = true) (hsync : inSync h e) (hm : h.m_nOffset < 2 ^ 64)
    (hsz : 0 < nSize) (hmore : (e.st.data.length - e.st.pos) / nSize < nCount)
    (hc2 : 0 < nCount2) :
    (h.Read hostStdio e nSize nCount).ret.1 < nCount ∧
    (h.Read hostStdio e nSize nCount).h.Eof = 1 ∧
    ((h.Read hostStdio e nSize nCount).h.Read hostStdio (h.Read hostStdio e nSize nCount).e
        nSize2 nCount2).ret.1 = 0 ∧
    ((h.Read hostStdio e nSize nCount).h.Read hostStdio (h.Read hostStdio e nSize nCount).e
        nSize2 nCount2).h.Tell = (h.Read hostStdio e nSize nCount).h.Tell ∧
    ((h.Read hostStdio e nSize nCount).h.Read hostStdio (h.Read hostStdio e nSize nCount).e
        nSize2 nCount2).h.Eof = 1 := by
  obtain ⟨hd, hp, hr, -, -, hsk⟩ := host_flushingSeek_st h e h.bLastOpWrite hsync hm
  obtain ⟨r1, r2, r3, r4⟩ := host_Read_spec h e nSize nCount
  have hmore1 : ((flushingSeek hostStdio h.bLastOpWrite h e).st.data.length -
      (flushingSeek hostStdio h.bLastOpWrite h e).st.pos) / nSize < nCount := by
    rw [hd, hp]; exact hmore
  obtain ⟨f1, f2, f3⟩ := Stream.fread_short (flushingSeek hostStdio h.bLastOpWrite h e).st
    nSize nCount hsz (by rw [hr]; exact hcr) hmore1
  have hne : ¬ (Stream.fread (flushingSeek hostStdio h.bLastOpWrite h e).st 0 nSize
      nCount).val.1 = nCount := by rw [f1]; omega
  rw [if_neg hne] at r4
  have hfl : flushingSeek hostStdio (h.Read hostStdio e nSize nCount).h.bLastOpWrite
      (h.Read hostStdio e nSize nCount).h (h.Read hostStdio e nSize nCount).e =
      (h.Read hostStdio e nSize nCount).e := by
    rw [(Read_flags hostStdio h e nSize nCount).2]; rfl
  obtain ⟨q1, -, q3, q4⟩ := host_Read_spec (h.Read hostStdio e nSize nCount).h
    (h.Read hostStdio e nSize nCount).e nSize2 nCount2
  rw [hfl, r2] at q1 q3 q4
  have hend : (Stream.fread (flushingSeek hostStdio h.bLastOpWrite h e).st 0 nSize
      nCount).st.data.length ≤ (Stream.fread (flushingSeek hostStdio h.bLastOpWrite h e).st 0
      nSize nCount).st.pos := by
    rw [(Stream.fread_frame _ 0 nSize nCount).1, f3]; omega
  obtain ⟨g1, g2, g3⟩ := Stream.fread_at_end _ nSize2 nCount2 hend
  have hne2 : ¬ (Stream.fread (Stream.fread (flushingSeek hostStdio h.bLastOpWrite h e).st 0
      nSize nCount).st 0 nSize2 nCount2).val.1 = nCount2 := by rw [g1]; omega
  have hsk1 : (Stream.fread (flushingSeek hostStdio h.bLastOpWrite h e).st 0 nSize
      nCount).st.seekable = e.st.seekable := by
    rw [(Stream.fread_frame _ 0 nSize nCount).2.2.2.2, hsk]
  refine ⟨?_, ?_, ?_, ?_, ?_⟩
  · rw [r1, f1]; exact hmore1
  · rw [Eof, r4, Stream.feof, if_pos f2]; decide
  · rw [q1, g1]
  · simp only [Tell]
    rw [q3, r3, g1, g2, hsk1]
    by_cases hs : e.st.seekable = false
    · rw [if_pos (Or.inr hs), if_pos (Or.inr hs)]
      simp
    · rw [if_neg (by simp only [not_or]; exact ⟨by omega, hs⟩),
        if_neg (by simp only [not_or]; exact ⟨hne, hs⟩)]
  · rw [Eof, q4, if_neg hne2, Stream.feof, if_pos (g3 f2)]; decide

/-- Witness for C6: scenario 2 of the specification on the ten-byte file `0123456789`,
at offset 5: reading ten bytes returns five of them and sets `Eof()`, and a further read
of five bytes returns 0. -/
theorem Read_past_end_then_Read_again_witness :
    ((⟨5, true, false, false, 0⟩ : VSIUnixStdioHandle).Read hostStdio
      (Env.start ⟨[48, 49, 50, 51, 52, 53, 54, 55, 56, 57], 5, false, true, false, false, true⟩)
      1 10).ret = (5, [53, 54, 55, 56, 57]) ∧
    ((⟨5, true, false, false, 0⟩ : VSIUnixStdioHandle).Read hostStdio
      (Env.start ⟨[48, 49, 50, 51, 52, 53, 54, 55, 56, 57], 5, false, true, false, false, true⟩)
      1 10).h.Eof = 1 :=
  ⟨by decide,
   (Read_past_end_then_Read_again ⟨5, true, false, false, 0⟩
      (Env.start ⟨[48, 49, 50, 51, 52, 53, 54, 55, 56, 57], 5, false, true, false, false, true⟩)
      1 10 1 5 (by decide) (by decide) (by decide) (by decide) (by decide) (by decide)).2.1⟩

/-- C5: for a read-only handle at offset `c` (the native position of a readable, seekable
file) and a target `t` with `0 < t - c < 4096` and at least `t - c` bytes remaining,
`Seek(t, SEEK_SET)` takes the discard-read path (one `fread`, no `fseek`), and a `Read`
after it returns the same element count and bytes, and leaves the same tracked offset,
as the same `Read` after the native reposition path of `Seek` to `t`. -/
theorem discard_Seek_equivalent_to_native_Seek (h : VSIUnixStdioHandle) (e : Env Stream)
    (t nSize nCount : Nat)
    (hro : h.bReadOnly = true) (hsync : inSync h e) (hsk : e.st.seekable = true)
    (hcr : e.st.canRead = true) (hgt : h.m_nOffset < t) (hlt : t < h.m_nOffset + 4096)
    (hrem : t ≤ e.st.data.length) (hlen : e.st.data.length < 2 ^ 63) :
    (h.Seek hostStdio e t SEEK_SET).ret = 0 ∧
    (h.Seek hostStdio e t SEEK_SET).e.trace = e.trace ++ [Call.fread 1 (t - h.m_nOffset)] ∧
    (SeekNative hostStdio (afterClearEof h) e t SEEK_SET).ret = 0 ∧
    (SeekNative hostStdio (afterClearEof h) e t SEEK_SET).e.trace
      = e.trace ++ [Call.fseek t SEEK_SET] ∧
    (h.Seek hostStdio e t SEEK_SET).h = (SeekNative hostStdio (afterClearEof h) e t SEEK_SET).h ∧
    ((h.Seek hostStdio e t SEEK_SET).h.Read hostStdio (h.Seek hostStdio e t SEEK_SET).e
        nSize nCount).ret =
      ((SeekNative hostStdio (afterClearEof h) e t SEEK_SET).h.Read hostStdio
        (SeekNative hostStdio (afterClearEof h) e t SEEK_SET).e nSize nCount).ret ∧
    ((h.Seek hostStdio e t SEEK_SET).h.Read hostStdio (h.Seek hostStdio e t SEEK_SET).e
        nSize nCount).h.m_nOffset =
      ((SeekNative hostStdio (afterClearEof h) e t SEEK_SET).h.Read hostStdio
        (SeekNative hostStdio (afterClearEof h) e t SEEK_SET).e nSize nCount).h.m_nOffset := by
  have ht : t < 2 ^ 63 := by omega
  obtain ⟨d1, d2, d3, d4, d5, d6⟩ := host_discardRead h e hsync hcr hgt hlt hrem hlen
  obtain ⟨n1, n2, n3, n4, n5, n6, n7⟩ := host_SeekNative_set (afterClearEof h) e hsk ht
  have hdiff := seekDiff_forward h (Nat.le_of_lt hgt) ht
  have h1 : ¬ (SEEK_SET = SEEK_SET ∧ t = h.m_nOffset) := by
    intro hc; omega
  have h2 : discardGuard h t SEEK_SET := ⟨hro, rfl, by omega, by omega⟩
  have h3 : toInt32 (discardRead hostStdio h e t).val.1 = toInt32 (seekDiff h t) := by
    rw [d1, hdiff]
    congr 1
    omega
  have hA := Seek_discard hostStdio h e t SEEK_SET h1 h2 h3
  have hh : (h.Seek hostStdio e t SEEK_SET).h =
      (SeekNative hostStdio (afterClearEof h) e t SEEK_SET).h := by
    rw [hA, n2]
  refine ⟨by rw [hA], by rw [hA]; exact d6, n1, n7, hh, ?_, ?_⟩
  · rw [hh]
    refine (host_Read_congr _ _ _ nSize nCount ?_ ?_ ?_ ?_ ?_).1
    · rw [n2]
    · rw [hA, n3]; exact d2
    · rw [hA, n4]; exact d3
    · rw [hA, n5]; exact d4
    · rw [hA, n6]; exact d5
  · rw [hh]
    refine (host_Read_congr _ _ _ nSize nCount ?_ ?_ ?_ ?_ ?_).2
    · rw [n2]
    · rw [hA, n3]; exact d2
    · rw [hA, n4]; exact d3
    · rw [hA, n5]; exact d4
    · rw [hA, n6]; exact d5

/-- Witness for C5: on the ten-byte file `0123456789`, a read-only handle at offset 2
seeks to 5 and reads three bytes. -/
theorem discard_Seek_equivalent_to_native_Seek_witness :
    (((⟨2, true, false, false, 0⟩ : VSIUnixStdioHandle).Seek hostStdio
        (Env.start ⟨[48, 49, 50, 51, 52, 53, 54, 55, 56, 57], 2, false, true, false, false, true⟩)
        5 SEEK_SET).h.Read hostStdio
      ((⟨2, true, false, false, 0⟩ : VSIUnixStdioHandle).Seek hostStdio
        (Env.start ⟨[48, 49, 50, 51, 52, 53, 54, 55, 56, 57], 2, false, true, false, false, true⟩)
        5 SEEK_SET).e 1 3).ret = (3, [53, 54, 55]) ∧
    ((⟨2, true, false, false, 0⟩ : VSIUnixStdioHandle).Seek hostStdio
        (Env.start ⟨[48, 49, 50, 51, 52, 53, 54, 55, 56, 57], 2, false, true, false, false, true⟩)
        5 SEEK_SET).e.trace = [Call.fread 1 3] :=
  ⟨by decide,
   (discard_Seek_equivalent_to_native_Seek ⟨2, true, false, false, 0⟩
      (Env.start ⟨[48, 49, 50, 51, 52, 53, 54, 55, 56, 57], 2, false, true, false, false, true⟩)
      5 1 3 (by decide) (by decide) (by decide) (by decide) (by decide) (by decide) (by decide)
      (by decide)).2.1⟩

/-- C4, refuted as stated: a read-only handle at offset 0 of a pipe that delivers three
bytes is in sync; `Seek(10, SEEK_SET)` attempts the discard read, which returns 3 of the
10 bytes, and the native reposition then fails; the tracked offset is still 0 while the
native position is 3. -/
theorem short_discard_then_failed_fseek_desyncs :
    inSync (VSIUnixStdioHandle.new true)
      (Env.start ⟨[1, 2, 3], 0, false, true, false, false, false⟩) ∧
    ((VSIUnixStdioHandle.new true).Seek hostStdio
      (Env.start ⟨[1, 2, 3], 0, false, true, false, false, false⟩) 10 SEEK_SET).e.trace
        = [Call.fread 1 10, Call.fseek 10 SEEK_SET] ∧
    ((VSIUnixStdioHandle.new true).Seek hostStdio
      (Env.start ⟨[1, 2, 3], 0, false, true, false, false, false⟩) 10 SEEK_SET).ret = -1 ∧
    ((VSIUnixStdioHandle.new true).Seek hostStdio
      (Env.start ⟨[1, 2, 3], 0, false, true, false, false, false⟩) 10 SEEK_SET).h.Tell = 0 ∧
    ((VSIUnixStdioHandle.new true).Seek hostStdio
      (Env.start ⟨[1, 2, 3], 0, false, true, false, false, false⟩) 10 SEEK_SET).e.st.pos = 3 ∧
    ¬ inSync
      ((VSIUnixStdioHandle.new true).Seek hostStdio
        (Env.start ⟨[1, 2, 3], 0, false, true, false, false, false⟩) 10 SEEK_SET).h
      ((VSIUnixStdioHandle.new true).Seek hostStdio
        (Env.start ⟨[1, 2, 3], 0, false, true, false, false, false⟩) 10 SEEK_SET).e := by
  decide

/-- C4, amended: on a seekable stream whose size is below 2^63 and whose position is at
most 2^63 - 4096, if the tracked offset equals the native position, then it still does
after any `Seek` (any `whence`, any 64-bit offset, whether or not the discard read is
attempted and completes), after any `Read`, and, when the stream is not in append mode,
after any `Write` of whole elements present in the buffer that stays below 2^64. -/
theorem sync_preserved_on_seekable_stream (h : VSIUnixStdioHandle) (e : Env Stream)
    (hsync : inSync h e) (hsk : e.st.seekable = true) (hpos : e.st.pos + 4096 ≤ 2 ^ 63)
    (hlen : e.st.data.length < 2 ^ 63) :
    (∀ (o : Nat) (w : Int), o < 2 ^ 64 →
      inSync (h.Seek hostStdio e o w).h (h.Seek hostStdio e o w).e) ∧
    (∀ nSize nCount : Nat,
      inSync (h.Read hostStdio e nSize nCount).h (h.Read hostStdio e nSize nCount).e) ∧
    (∀ (buf : List Byte) (nSize nCount : Nat), e.st.append = false →
      nSize * nCount ≤ buf.length → e.st.pos + nSize * nCount < 2 ^ 64 →
      inSync (h.Write hostStdio e buf nSize nCount).h (h.Write hostStdio e buf nSize nCount).e) :=
  ⟨fun o w ho => host_Seek_sync h e o w hsync hsk hpos ho,
   fun a b => host_Read_sync h e a b hsync hsk (by omega) hlen,
   fun buf a b happ hbuf hb => host_Write_sync h e buf a b hsync happ hbuf hb⟩

/-- Witness for C4 (amended): a read-only handle at offset 0 of a three-byte regular
file stays in sync when `Seek(10, SEEK_SET)` finds only three bytes to discard. -/
theorem sync_preserved_on_seekable_stream_witness :
    inSync (VSIUnixStdioHandle.new true)
      (Env.start ⟨[1, 2, 3], 0, false, true, false, false, true⟩) ∧
    inSync
      ((VSIUnixStdioHandle.new true).Seek hostStdio
        (Env.start ⟨[1, 2, 3], 0, false, true, false, false, true⟩) 10 SEEK_SET).h
      ((VSIUnixStdioHandle.new true).Seek hostStdio
        (Env.start ⟨[1, 2, 3], 0, false, true, false, false, true⟩) 10 SEEK_SET).e :=
  ⟨by decide,
   (sync_preserved_on_seekable_stream (VSIUnixStdioHandle.new true)
      (Env.start ⟨[1, 2, 3], 0, false, true, false, false, true⟩) (by decide) (by decide)
      (by decide) (by decide)).1 10 SEEK_SET (by decide)⟩

/-- C3, refuted as stated: a read/write handle at offset 0 of the file `1 2 3` writes the
byte `9` and then reads one byte with no `Seek` between the two calls. `Write` has
advanced the tracked offset to 1, the reposition `Read` inserts is to offset 1, and the
`Read` returns the byte `2` that follows the written one, not the byte `9` just written
(which is in the file, at offset 0). -/
theorem Write_then_Read_returns_following_bytes :
    ((VSIUnixStdioHandle.new false).Write hostStdio
      (Env.start ⟨[1, 2, 3], 0, false, true, true, false, true⟩) [9] 1 1).ret = 1 ∧
    ((VSIUnixStdioHandle.new false).Write hostStdio
      (Env.start ⟨[1, 2, 3], 0, false, true, true, false, true⟩) [9] 1 1).e.st.data
        = [9, 2, 3] ∧
    (((VSIUnixStdioHandle.new false).Write hostStdio
      (Env.start ⟨[1, 2, 3], 0, false, true, true, false, true⟩) [9] 1 1).h.Read hostStdio
      ((VSIUnixStdioHandle.new false).Write hostStdio
        (Env.start ⟨[1, 2, 3], 0, false, true, true, false, true⟩) [9] 1 1).e 1 1).e.trace
        = [Call.fwrite 1 1, Call.fseek 1 SEEK_SET, Call.fread 1 1] ∧
    (((VSIUnixStdioHandle.new false).Write hostStdio
      (Env.start ⟨[1, 2, 3], 0, false, true, true, false, true⟩) [9] 1 1).h.Read hostStdio
      ((VSIUnixStdioHandle.new false).Write hostStdio
        (Env.start ⟨[1, 2, 3], 0, false, true, true, false, true⟩) [9] 1 1).e 1 1).ret
        = (1, [2]) ∧
    (((VSIUnixStdioHandle.new false).Write hostStdio
      (Env.start ⟨[1, 2, 3], 0, false, true, true, false, true⟩) [9] 1 1).h.Read hostStdio
      ((VSIUnixStdioHandle.new false).Write hostStdio
        (Env.start ⟨[1, 2, 3], 0, false, true, true, false, true⟩) [9] 1 1).e 1 1).ret.2
        ≠ [9] := by
  decide

/-- C3, amended: for a handle opened for reading and writing (not in append mode) on a
seekable file, synchronised at offset `p`, and every non-empty byte string `b`: `Write`
of `b` returns `|b|` and advances `Tell()` to `p + |b|`; a `Read` of `|b|` bytes with no
intervening `Seek` returns the bytes of the file that follow the written ones (those at
`p + |b|` onwards); after `Seek(p, SEEK_SET)` back to where the write began, a `Read` of
`|b|` bytes returns exactly `b`. -/
theorem Write_then_Seek_back_then_Read (h : VSIUnixStdioHandle) (e : Env Stream)
    (b : List Byte)
    (hro : h.bReadOnly = false) (hcr : e.st.canRead = true) (hcw : e.st.canWrite = true)
    (happ : e.st.append = false) (hsk : e.st.seekable = true) (hsync : inSync h e)
    (hne : b ≠ []) (hpos : e.st.pos + b.length < 2 ^ 63) :
    (h.Write hostStdio e b 1 b.length).ret = b.length ∧
    (h.Write hostStdio e b 1 b.length).h.Tell = h.m_nOffset + b.length ∧
    ((h.Write hostStdio e b 1 b.length).h.Read hostStdio
        (h.Write hostStdio e b 1 b.length).e 1 b.length).ret.2
      = (e.st.data.drop (h.m_nOffset + b.length)).take b.length ∧
    ((h.Write hostStdio e b 1 b.length).h.Seek hostStdio
        (h.Write hostStdio e b 1 b.length).e h.m_nOffset SEEK_SET).ret = 0 ∧
    (((h.Write hostStdio e b 1 b.length).h.Seek hostStdio
        (h.Write hostStdio e b 1 b.length).e h.m_nOffset SEEK_SET).h.Read hostStdio
      ((h.Write hostStdio e b 1 b.length).h.Seek hostStdio
        (h.Write hostStdio e b 1 b.length).e h.m_nOffset SEEK_SET).e 1 b.length).ret
      = (b.length, b) := by
  have hm : h.m_nOffset = e.st.pos := hsync
  have hlen : 0 < b.length := List.length_pos.mpr hne
  obtain ⟨w1, w2, w3, w4, w5, w6, w7⟩ := host_Write_bytes h e b hsync hcw happ hne hpos
  have hsyncW : inSync (h.Write hostStdio e b 1 b.length).h (h.Write hostStdio e b 1 b.length).e := by
    unfold inSync; rw [w2, w5]
  refine ⟨w1, w2, ?_, ?_, ?_⟩
  · obtain ⟨hd, hp, hr, -, -, -⟩ := host_flushingSeek_st (h.Write hostStdio e b 1 b.length).h
      (h.Write hostStdio e b 1 b.length).e (h.Write hostStdio e b 1 b.length).h.bLastOpWrite
      hsyncW (by rw [w2]; omega)
    rw [(host_Read_spec _ _ 1 b.length).1,
      Stream.fread_bytes _ b.length hlen (by rw [hr, w6]; exact hcr), hd, hp, w4, w5,
      Stream.overwrite_drop_past]
  · have h1 : ¬ (SEEK_SET = SEEK_SET ∧
        h.m_nOffset = (h.Write hostStdio e b 1 b.length).h.m_nOffset) := by
      rw [w2]; intro hc; omega
    have h2 : ¬ discardGuard (h.Write hostStdio e b 1 b.length).h h.m_nOffset SEEK_SET := by
      intro hg
      have hg1 := hg.1
      rw [w3, hro] at hg1
      exact Bool.false_ne_true hg1
    rw [Seek_general hostStdio _ _ _ _ h1 h2]
    exact (host_SeekNative_set _ _ (by rw [w7]; exact hsk) (by omega)).1
  · have h1 : ¬ (SEEK_SET = SEEK_SET ∧
        h.m_nOffset = (h.Write hostStdio e b 1 b.length).h.m_nOffset) := by
      rw [w2]; intro hc; omega
    have h2 : ¬ discardGuard (h.Write hostStdio e b 1 b.length).h h.m_nOffset SEEK_SET := by
      intro hg
      have hg1 := hg.1
      rw [w3, hro] at hg1
      exact Bool.false_ne_true hg1
    rw [Seek_general hostStdio _ _ _ _ h1 h2]
    obtain ⟨-, n2, n3, n4, n5, -, -⟩ := host_SeekNative_set
      (afterClearEof (h.Write hostStdio e b 1 b.length).h) (h.Write hostStdio e b 1 b.length).e
      (t := h.m_nOffset) (by rw [w7]; exact hsk) (by omega)
    have hfl : flushingSeek hostStdio
        (SeekNative hostStdio (afterClearEof (h.Write hostStdio e b 1 b.length).h)
          (h.Write hostStdio e b 1 b.length).e h.m_nOffset SEEK_SET).h.bLastOpWrite
        (SeekNative hostStdio (afterClearEof (h.Write hostStdio e b 1 b.length).h)
          (h.Write hostStdio e b 1 b.length).e h.m_nOffset SEEK_SET).h
        (SeekNative hostStdio (afterClearEof (h.Write hostStdio e b 1 b.length).h)
          (h.Write hostStdio e b 1 b.length).e h.m_nOffset SEEK_SET).e =
        (SeekNative hostStdio (afterClearEof (h.Write hostStdio e b 1 b.length).h)
          (h.Write hostStdio e b 1 b.length).e h.m_nOffset SEEK_SET).e := by
      rw [(SeekNative_flags hostStdio _ _ _ _).1]; rfl
    rw [(host_Read_spec _ _ 1 b.length).1, hfl,
      Stream.fread_bytes _ b.length hlen (by rw [n5, w6]; exact hcr), n3, n4, w4,
      Stream.overwrite_drop_take]

/-- Witness for C3 (amended): the file `1 2 3`, the byte `9` written at offset 0, then
`Seek(0, SEEK_SET)` and a one-byte `Read`, which returns `9`. -/
theorem Write_then_Seek_back_then_Read_witness :
    (((VSIUnixStdioHandle.new false).Write hostStdio
        (Env.start ⟨[1, 2, 3], 0, false, true, true, false, true⟩) [9] 1 1).h.Seek hostStdio
      ((VSIUnixStdioHandle.new false).Write hostStdio
        (Env.start ⟨[1, 2, 3], 0, false, true, true, false, true⟩) [9] 1 1).e 0 SEEK_SET).ret
      = 0 ∧
    ((VSIUnixStdioHandle.new false).Write hostStdio
        (Env.start ⟨[1, 2, 3], 0, false, true, true, false, true⟩) [9] 1 1).h.Tell = 1 :=
  ⟨(Write_then_Seek_back_then_Read (VSIUnixStdioHandle.new false)
      (Env.start ⟨[1, 2, 3], 0, false, true, true, false, true⟩) [9] (by decide) (by decide)
      (by decide) (by decide) (by decide) (by decide) (by decide) (by decide)).2.2.2.1,
   by decide⟩

/-- C11: `Seek` clears `bAtEOF` unconditionally: for every handle state, offset and
`whence` (known or not) and every behaviour of the native calls, also when `Seek` fails,
`Eof()` returns 0 right after `Seek`. -/
theorem Seek_clears_Eof {σ : Type} (N : Native σ) (h : VSIUnixStdioHandle) (e : Env σ)
    (o : Nat) (w : Int) :
    (h.Seek N e o w).h.bAtEOF = 0 ∧ (h.Seek N e o w).h.Eof = 0 := by
  have key : (h.Seek N e o w).h.bAtEOF = 0 := by
    by_cases h1 : w = SEEK_SET ∧ o = h.m_nOffset
    · rw [Seek_fast N h e o w h1.1 h1.2]; rfl
    · by_cases h2 : discardGuard h o w
      · by_cases h3 : toInt32 (discardRead N h e o).val.1 = toInt32 (seekDiff h o)
        · rw [Seek_discard N h e o w h1 h2 h3]; rfl
        · rw [Seek_fallback N h e o w h1 h2 h3, SeekNative_bAtEOF]; rfl
      · rw [Seek_general N h e o w h1 h2, SeekNative_bAtEOF]; rfl
  exact ⟨key, by simp [Eof, key]⟩

/-- C12: for a `Seek` that reaches the native reposition call, when that call does not
return -1: with `SEEK_SET` the tracked offset becomes the target offset; with `SEEK_END`
it becomes the value returned by the position query issued after the reposition (as a
`vsi_l_offset`); with `SEEK_CUR` it becomes the previous tracked offset plus the target
offset in unsigned 64-bit arithmetic, and no position query is issued. -/
theorem Seek_recomputes_offset_by_whence {σ : Type} (N : Native σ) (h : VSIUnixStdioHandle)
    (e : Env σ) (o : Nat) (w : Int) (hr : reachesNative N h e o w)
    (hok : ((envAtReposition N h e o w).fseek N o w).val ≠ -1) :
    (w = SEEK_SET →
      (h.Seek N e o w).h.m_nOffset = o ∧
      issuedSince (envAtReposition N h e o w) (h.Seek N e o w).e = [Call.fseek o w]) ∧
    (w = SEEK_END →
      (h.Seek N e o w).h.m_nOffset =
        toU64 ((((envAtReposition N h e o w).fseek N o w).env.vsiDebug N).ftell N).val ∧
      issuedSince (envAtReposition N h e o w) (h.Seek N e o w).e
        = [Call.fseek o w, Call.ftell]) ∧
    (w = SEEK_CUR →
      (h.Seek N e o w).h.m_nOffset = (h.m_nOffset + o) % 2 ^ 64 ∧
      issuedSince (envAtReposition N h e o w) (h.Seek N e o w).e = [Call.fseek o w]) := by
  rw [Seek_of_reachesNative N h e o w hr]
  refine ⟨?_, ?_, ?_⟩
  · intro hw
    have hne : ¬ w = SEEK_END := by rw [hw]; decide
    refine ⟨?_, ?_⟩
    · rw [SeekNative_offset, if_pos hok, if_pos hw]
    · apply issuedSince_append
      rw [SeekNative_trace, if_neg (fun hc => hne hc.2), List.append_nil]
  · intro hw
    have hne : ¬ w = SEEK_SET := by rw [hw]; decide
    refine ⟨?_, ?_⟩
    · rw [SeekNative_offset, if_pos hok, if_neg hne, if_pos hw]
    · apply issuedSince_append
      rw [SeekNative_trace, if_pos ⟨hok, hw⟩, List.append_assoc]
      rfl
  · intro hw
    have hne1 : ¬ w = SEEK_SET := by rw [hw]; decide
    have hne2 : ¬ w = SEEK_END := by rw [hw]; decide
    refine ⟨?_, ?_⟩
    · rw [SeekNative_offset, if_pos hok, if_neg hne1, if_neg hne2, if_pos hw]
      rfl
    · apply issuedSince_append
      rw [SeekNative_trace, if_neg (fun hc => hne2 hc.2), List.append_nil]

/-- Witness for C12: on the ten-byte file, a handle at offset 3 seeks by 4 with `SEEK_CUR`
and is then at offset 7, having issued only the `fseek`. -/
theorem Seek_recomputes_offset_by_whence_witness :
    ((⟨3, false, false, false, 0⟩ : VSIUnixStdioHandle).Seek hostStdio
      (Env.start ⟨[48, 49, 50, 51, 52, 53, 54, 55, 56, 57], 3, false, true, true, false, true⟩)
      4 SEEK_CUR).h.m_nOffset = 7 :=
  ((Seek_recomputes_offset_by_whence hostStdio ⟨3, false, false, false, 0⟩
      (Env.start ⟨[48, 49, 50, 51, 52, 53, 54, 55, 56, 57], 3, false, true, true, false, true⟩)
      4 SEEK_CUR (by decide) (by decide)).2.2 rfl).1.trans (by decide)

/-- C13: a `Seek` that reaches the native reposition call returns exactly the status of
that call and leaves `lastOperation = None` whether the call succeeded or failed; when
the call returns -1 the tracked offset is unchanged. -/
theorem Seek_returns_native_status {σ : Type} (N : Native σ) (h : VSIUnixStdioHandle)
    (e : Env σ) (o : Nat) (w : Int) (hr : reachesNative N h e o w) :
    (h.Seek N e o w).ret = ((envAtReposition N h e o w).fseek N o w).val ∧
    (h.Seek N e o w).h.bLastOpWrite = false ∧
    (h.Seek N e o w).h.bLastOpRead = false ∧
    (((envAtReposition N h e o w).fseek N o w).val = -1 →
      (h.Seek N e o w).h.m_nOffset = h.m_nOffset) := by
  rw [Seek_of_reachesNative N h e o w hr]
  refine ⟨SeekNative_ret N _ _ o w, (SeekNative_flags N _ _ o w).1,
    (SeekNative_flags N _ _ o w).2, ?_⟩
  intro hv
  rw [SeekNative_offset_of_fail N _ _ o w hv]
  rfl

/-- Witness for C13: on a pipe the reposition fails; `Seek(5, SEEK_END)` returns -1, clears
the flag of a preceding read and leaves the tracked offset at 2. -/
theorem Seek_returns_native_status_witness :
    ((⟨2, false, false, true, 0⟩ : VSIUnixStdioHandle).Seek hostStdio
      (Env.start ⟨[1, 2, 3], 2, false, true, false, false, false⟩) 5 SEEK_END).ret = -1 ∧
    ((⟨2, false, false, true, 0⟩ : VSIUnixStdioHandle).Seek hostStdio
      (Env.start ⟨[1, 2, 3], 2, false, true, false, false, false⟩) 5 SEEK_END).h.bLastOpRead
        = false ∧
    ((⟨2, false, false, true, 0⟩ : VSIUnixStdioHandle).Seek hostStdio
      (Env.start ⟨[1, 2, 3], 2, false, true, false, false, false⟩) 5 SEEK_END).h.m_nOffset = 2 :=
  ⟨(Seek_returns_native_status hostStdio ⟨2, false, false, true, 0⟩
      (Env.start ⟨[1, 2, 3], 2, false, true, false, false, false⟩) 5 SEEK_END
      (by decide)).1.trans (by decide),
   (Seek_returns_native_status hostStdio ⟨2, false, false, true, 0⟩
      (Env.start ⟨[1, 2, 3], 2, false, true, false, false, false⟩) 5 SEEK_END
      (by decide)).2.2.1,
   (Seek_returns_native_status hostStdio ⟨2, false, false, true, 0⟩
      (Env.start ⟨[1, 2, 3], 2, false, true, false, false, false⟩) 5 SEEK_END
      (by decide)).2.2.2 (by decide)⟩

/-- C14: `Truncate(nNewSize)` leaves the handle exactly as it was (tracked offset,
`lastOperation` flags and `bAtEOF`, hence `Tell()` and `Eof()`), for every handle state,
every new size and every behaviour of the native calls; it returns the status of the
native resize, and the calls it issues are the native flush followed by the native
resize. -/
theorem Truncate_leaves_handle {σ : Type} (N : Native σ) (h : VSIUnixStdioHandle) (e : Env σ)
    (nNewSize : Nat) :
    (h.Truncate N e nNewSize).h = h ∧
    (h.Truncate N e nNewSize).h.Tell = h.Tell ∧
    (h.Truncate N e nNewSize).h.Eof = h.Eof ∧
    (h.Truncate N e nNewSize).ret = ((e.fflush N).env.ftruncate N nNewSize).val ∧
    issuedSince e (h.Truncate N e nNewSize).e = [Call.fflush, Call.ftruncate nNewSize] := by
  refine ⟨rfl, rfl, rfl, rfl, ?_⟩
  apply issuedSince_append
  simp [Truncate, Env.ftruncate, Env.fflush]

/-- C17: for a `Seek` that reaches the native reposition call, `errno` on return is
`errno` as it was right after that call, whatever the diagnostic print and the position
query of the `SEEK_END` branch did to it in between; on the fast path (`SEEK_SET` to the
tracked offset) `errno` is untouched. -/
theorem Seek_preserves_errno {σ : Type} (N : Native σ) (h : VSIUnixStdioHandle) (e : Env σ)
    (o : Nat) (w : Int) :
    (reachesNative N h e o w →
      (h.Seek N e o w).e.errno = ((envAtReposition N h e o w).fseek N o w).env.errno) ∧
    (w = SEEK_SET → o = h.m_nOffset → (h.Seek N e o w).e.errno = e.errno) := by
  refine ⟨?_, ?_⟩
  · intro hr
    rw [Seek_of_reachesNative N h e o w hr]
    exact SeekNative_errno N _ _ o w
  · intro hw ho
    rw [Seek_fast N h e o w hw ho]

/-- Witness for C17: with a C library whose diagnostic print sets `errno` to 99 and whose
`ftell` sets it to 77, `Seek(0, SEEK_END)` entered with `errno = 5` returns with
`errno = 5`, the value left by the successful `fseek`. -/
theorem Seek_preserves_errno_witness :
    ((VSIUnixStdioHandle.new false).Seek noisyStdio
      { st := ⟨[1, 2, 3], 0, false, true, true, false, true⟩, errno := 5, trace := [] }
      0 SEEK_END).e.errno = 5 ∧
    ((VSIUnixStdioHandle.new false).Seek noisyStdio
      { st := ⟨[1, 2, 3], 0, false, true, true, false, true⟩, errno := 5, trace := [] }
      0 SEEK_END).e.trace = [Call.fseek 0 SEEK_END, Call.ftell] :=
  ⟨((Seek_preserves_errno noisyStdio (VSIUnixStdioHandle.new false)
      { st := ⟨[1, 2, 3], 0, false, true, true, false, true⟩, errno := 5, trace := [] }
      0 SEEK_END).1 (by decide)).trans (by decide),
   by decide⟩

/-- C16: `ReadDir` returns the `NULL` list exactly when the directory cannot be opened;
when it can, the result is a list holding exactly the entry names the directory iteration
yields, in that order, also when it yields none; the directory queried is the path
itself, except that an empty path is queried as the directory ".". In short, the result
of `ReadDir` is the outcome of the directory iteration on that directory. -/
theorem ReadDir_result (opendir : String → Option (List String)) (pszPath : String) :
    VSIUnixStdioFilesystemHandler.ReadDir opendir pszPath =
      opendir (if pszPath.length = 0 then (".") else pszPath) ∧
    (VSIUnixStdioFilesystemHandler.ReadDir opendir pszPath = none ↔
      opendir (if pszPath.length = 0 then (".") else pszPath) = none) ∧
    (∀ entries : List String,
      opendir (if pszPath.length = 0 then (".") else pszPath) = some entries →
      VSIUnixStdioFilesystemHandler.ReadDir opendir pszPath = some entries) ∧
    (pszPath.length = 0 →
      VSIUnixStdioFilesystemHandler.ReadDir opendir pszPath = opendir (".")) ∧
    (pszPath.length ≠ 0 →
      VSIUnixStdioFilesystemHandler.ReadDir opendir pszPath = opendir pszPath) ∧
    VSIUnixStdioFilesystemHandler.ReadDir opendir ("") = opendir (".") := by
  have hcd : VSIUnixStdioFilesystemHandler.currentDirectory = (".") := rfl
  have key : ∀ p : String,
      VSIUnixStdioFilesystemHandler.ReadDir opendir p =
        opendir (if p.length = 0 then (".") else p) := by
    intro p
    unfold VSIUnixStdioFilesystemHandler.ReadDir
    rw [hcd]
    cases ho : opendir (if p.length = 0 then (".") else p) with
    | none => simp only [CPLStringList.StealList, CPLStringList.empty]
    | some entries =>
      simp only [CPLStringList.Assign, CPLStringList.foldl_AddString,
        CPLStringList.StealList, List.nil_append]
  refine ⟨key pszPath, ?_, ?_, ?_, ?_, ?_⟩
  · rw [key pszPath]
  · intro entries ho
    rw [key pszPath, ho]
  · intro hlen
    rw [key pszPath, if_pos hlen]
  · intro hlen
    rw [key pszPath, if_neg hlen]
  · rw [key ("")]
    rfl

/-- Witness for C16: with a host on which only the directory "." exists and holds the
entries `.`, `..` and `a.tif`, the empty path lists those three names, and a missing
directory gives the `NULL` list. -/
theorem ReadDir_result_witness :
    VSIUnixStdioFilesystemHandler.ReadDir
      (fun p => if p = (".") then some [".", "..", "a.tif"] else none) ("")
        = some [".", "..", "a.tif"] ∧
    VSIUnixStdioFilesystemHandler.ReadDir
      (fun p => if p = (".") then some [".", "..", "a.tif"] else none) ("/missing") = none :=
  ⟨(ReadDir_result
      (fun p => if p = (".") then some [".", "..", "a.tif"] else none) ("")).2.2.1
        [".", "..", "a.tif"] (by decide),
   (ReadDir_result
      (fun p => if p = (".") then some [".", "..", "a.tif"] else none) ("/missing")).2.1.mpr
        (by decide)⟩

/-- C15, refuted as stated: the native open succeeds, the mode `w` is not read-only and the
cache option is off, yet `Open` returns `NULL` and not the raw handle, because the
allocation of the handle object failed; the stream has been closed. -/
theorem Open_null_after_successful_fopen :
    ((fun (_ _ : String) (er : Int) =>
        (some (⟨[], 0, false, false, true, false, true⟩ : Stream), er)) ("out.tif") ("w") 0).1
      = some ⟨[], 0, false, false, true, false, true⟩ ∧
    (VSIUnixStdioFilesystemHandler.Open hostStdio
      (fun (_ _ : String) (er : Int) =>
        (some (⟨[], 0, false, false, true, false, true⟩ : Stream), er))
      false false 0 ("out.tif") ("w")).ret = OpenResult.null ∧
    (VSIUnixStdioFilesystemHandler.Open hostStdio
      (fun (_ _ : String) (er : Int) =>
        (some (⟨[], 0, false, false, true, false, true⟩ : Stream), er))
      false false 0 ("out.tif") ("w")).ret ≠ OpenResult.raw (VSIUnixStdioHandle.new false) ∧
    (VSIUnixStdioFilesystemHandler.Open hostStdio
      (fun (_ _ : String) (er : Int) =>
        (some (⟨[], 0, false, false, true, false, true⟩ : Stream), er))
      false false 0 ("out.tif") ("w")).trace = [Call.fclose] := by
  decide

/-- C15, amended: the handle is marked read-only exactly when the access mode is `r` or
`rb`; when the native open fails `Open` returns `NULL`; when the native open and the
construction of the handle both succeed, `Open` returns the handle wrapped by the cache
exactly when the handle is read-only and the cache option is on, and the raw handle
otherwise; when the native open succeeds and the construction of the handle fails,
`Open` closes the stream and returns `NULL`. -/
theorem Open_result {σ : Type} (N : Native σ) (fopen : String → String → Int → Option σ × Int)
    (bAllocOk bVSICache : Bool) (errno : Int) (pszFilename pszAccess : String) :
    (VSIUnixStdioFilesystemHandler.isReadOnlyAccess pszAccess = true ↔
      pszAccess = "r" ∨ pszAccess = "rb") ∧
    ((fopen pszFilename pszAccess errno).1 = none →
      (VSIUnixStdioFilesystemHandler.Open N fopen bAllocOk bVSICache errno pszFilename
        pszAccess).ret = OpenResult.null) ∧
    (∀ fp : σ, (fopen pszFilename pszAccess errno).1 = some fp → bAllocOk = true →
      ((VSIUnixStdioFilesystemHandler.isReadOnlyAccess pszAccess = true ∧ bVSICache = true →
        (VSIUnixStdioFilesystemHandler.Open N fopen bAllocOk bVSICache errno pszFilename
          pszAccess).ret = OpenResult.cached (VSIUnixStdioHandle.new true)) ∧
       (¬ (VSIUnixStdioFilesystemHandler.isReadOnlyAccess pszAccess = true ∧ bVSICache = true) →
        (VSIUnixStdioFilesystemHandler.Open N fopen bAllocOk bVSICache errno pszFilename
          pszAccess).ret = OpenResult.raw (VSIUnixStdioHandle.new
            (VSIUnixStdioFilesystemHandler.isReadOnlyAccess pszAccess))))) ∧
    (∀ fp : σ, (fopen pszFilename pszAccess errno).1 = some fp → bAllocOk = false →
      (VSIUnixStdioFilesystemHandler.Open N fopen bAllocOk bVSICache errno pszFilename
        pszAccess).ret = OpenResult.null ∧
      (VSIUnixStdioFilesystemHandler.Open N fopen bAllocOk bVSICache errno pszFilename
        pszAccess).trace = [Call.fclose]) := by
  refine ⟨?_, ?_, ?_, ?_⟩
  · unfold VSIUnixStdioFilesystemHandler.isReadOnlyAccess
    simp only [Bool.or_eq_true, decide_eq_true_eq]
    exact or_comm
  · intro hf
    simp only [VSIUnixStdioFilesystemHandler.Open, hf]
  · intro fp hf ha
    refine ⟨?_, ?_⟩
    · intro hc
      simp only [VSIUnixStdioFilesystemHandler.Open, hf]
      rw [if_neg (by simp [ha]), if_pos hc, hc.1]
    · intro hc
      simp only [VSIUnixStdioFilesystemHandler.Open, hf]
      rw [if_neg (by simp [ha]), if_neg hc]
  · intro fp hf ha
    simp only [VSIUnixStdioFilesystemHandler.Open, hf]
    rw [if_pos ha]
    exact ⟨rfl, rfl⟩

/-- Witness for C15 (amended): opened with mode `rb` and the cache option on, a file gives
the cached read-only handle; the modes `r+`, `rb+`, `rt`, `w` and `a` are not
read-only. -/
theorem Open_result_witness :
    (VSIUnixStdioFilesystemHandler.Open hostStdio
      (fun (_ _ : String) (er : Int) =>
        (some (⟨[1, 2], 0, false, true, false, false, true⟩ : Stream), er))
      true true 0 ("in.tif") ("rb")).ret = OpenResult.cached (VSIUnixStdioHandle.new true) ∧
    (["r+", "rb+", "rt", "w", "a"].map VSIUnixStdioFilesystemHandler.isReadOnlyAccess)
      = [false, false, false, false, false] :=
  ⟨((Open_result hostStdio
      (fun (_ _ : String) (er : Int) =>
        (some (⟨[1, 2], 0, false, true, false, false, true⟩ : Stream), er))
      true true 0 ("in.tif") ("rb")).2.2.1 ⟨[1, 2], 0, false, true, false, false, true⟩ rfl rfl).1
        ⟨by decide, rfl⟩,
   by decide⟩

/-- C18, refuted as stated: a read-only handle whose tracked offset is 2^64 - 1 is asked to
`Seek(0, SEEK_SET)`. The target lies behind the tracked offset, so the difference target
minus tracked offset is negative, yet `Seek` attempts the discard read (of one byte) and
commits it. -/
theorem discard_read_attempted_behind_offset :
    issuedSince (Env.start ⟨[1, 2, 3], 0, false, true, false, false, true⟩)
      ((⟨2 ^ 64 - 1, true, false, false, 0⟩ : VSIUnixStdioHandle).Seek hostStdio
        (Env.start ⟨[1, 2, 3], 0, false, true, false, false, true⟩) 0 SEEK_SET).e
      = [Call.fread 1 1] ∧
    ((⟨2 ^ 64 - 1, true, false, false, 0⟩ : VSIUnixStdioHandle).Seek hostStdio
        (Env.start ⟨[1, 2, 3], 0, false, true, false, false, true⟩) 0 SEEK_SET).h.m_nOffset = 0 ∧
    ¬ ((0 : Int) < (0 : Int) - ((2 ^ 64 - 1 : Nat) : Int) ∧
        (0 : Int) - ((2 ^ 64 - 1 : Nat) : Int) < 4096) := by
  decide

/-- C18, amended: for all unsigned 64-bit offsets, `Seek` attempts the discard read exactly
when the handle is read-only, `whence` is `SEEK_SET` and the difference target minus
tracked offset, taken in unsigned 64-bit arithmetic, is above 0 and below 4096. The read
then asks for exactly that many bytes, at most 4096. `Seek` commits the path (returns 0,
tracked offset = target, both `lastOperation` flags cleared, no reposition call) when the
read returned that count, and otherwise goes on to the native reposition call. The
unsigned difference is the plain difference when the target is not behind the tracked
offset, and no discard read is attempted for a target behind it by at most 2^64 - 4096. -/
theorem Seek_discard_read_iff {σ : Type} (N : Native σ) (h : VSIUnixStdioHandle) (e : Env σ)
    (o : Nat) (w : Int) (hm : h.m_nOffset < 2 ^ 64) (ho : o < 2 ^ 64) :
    ((∃ k : Nat, Call.fread 1 k ∈ issuedSince e (h.Seek N e o w).e) ↔
      (h.bReadOnly = true ∧ w = SEEK_SET ∧ 0 < subU64 o h.m_nOffset ∧
        subU64 o h.m_nOffset < 4096)) ∧
    ((h.bReadOnly = true ∧ w = SEEK_SET ∧ 0 < subU64 o h.m_nOffset ∧
        subU64 o h.m_nOffset < 4096) →
      subU64 o h.m_nOffset ≤ 4096 ∧
      ((e.fread N 1 (subU64 o h.m_nOffset)).val.1 = subU64 o h.m_nOffset →
        (h.Seek N e o w).ret = 0 ∧ (h.Seek N e o w).h.m_nOffset = o ∧
        (h.Seek N e o w).h.bLastOpWrite = false ∧ (h.Seek N e o w).h.bLastOpRead = false ∧
        issuedSince e (h.Seek N e o w).e = [Call.fread 1 (subU64 o h.m_nOffset)]) ∧
      ((e.fread N 1 (subU64 o h.m_nOffset)).val.1 < subU64 o h.m_nOffset →
        issuedSince e (h.Seek N e o w).e =
          [Call.fread 1 (subU64 o h.m_nOffset), Call.fseek o SEEK_SET] ∧
        (h.Seek N e o w).ret =
          ((e.fread N 1 (subU64 o h.m_nOffset)).env.fseek N o SEEK_SET).val)) ∧
    (h.m_nOffset ≤ o → subU64 o h.m_nOffset = o - h.m_nOffset) ∧
    (o < h.m_nOffset → h.m_nOffset - o ≤ 2 ^ 64 - 4096 →
      ¬ ∃ k : Nat, Call.fread 1 k ∈ issuedSince e (h.Seek N e o w).e) := by
  have hiff : (∃ k : Nat, Call.fread 1 k ∈ issuedSince e (h.Seek N e o w).e) ↔
      (h.bReadOnly = true ∧ w = SEEK_SET ∧ 0 < subU64 o h.m_nOffset ∧
        subU64 o h.m_nOffset < 4096) := by
    rw [← discardGuard_iff h o w hm ho]
    constructor
    · rintro ⟨k, hk⟩
      by_contra hg
      rcases Seek_issued_of_not_guard N h e o w hg with hi | hi | hi <;>
        rw [hi] at hk <;> simp at hk
    · intro hg
      obtain ⟨c1, c2⟩ := Seek_issued_of_guard N h e o w hm ho hg
      refine ⟨subU64 o h.m_nOffset, ?_⟩
      by_cases h3 : toInt32 (e.fread N 1 (subU64 o h.m_nOffset)).val.1
          = (subU64 o h.m_nOffset : Int)
      · rw [(c1 h3).2]; simp
      · rw [(c2 h3).2]; simp
  refine ⟨hiff, ?_, ?_, ?_⟩
  · intro hG
    have hg := (discardGuard_iff h o w hm ho).mpr hG
    obtain ⟨-, hw, c, d⟩ := hG
    obtain ⟨c1, c2⟩ := Seek_issued_of_guard N h e o w hm ho hg
    refine ⟨by omega, ?_, ?_⟩
    · intro hn
      have h3 : toInt32 (e.fread N 1 (subU64 o h.m_nOffset)).val.1
          = (subU64 o h.m_nOffset : Int) := by
        rw [hn]; exact toInt32_of_small (by omega) (by omega)
      obtain ⟨hS, hi⟩ := c1 h3
      refine ⟨?_, ?_, ?_, ?_, hi⟩ <;> rw [hS]
    · intro hn
      have h3 : toInt32 (e.fread N 1 (subU64 o h.m_nOffset)).val.1
          ≠ (subU64 o h.m_nOffset : Int) := by
        rw [toInt32_of_small (by omega) (by omega)]
        omega
      obtain ⟨hS, hi⟩ := c2 h3
      subst hw
      exact ⟨hi, by rw [hS]; rfl⟩
  · intro hle
    unfold subU64 toU64
    omega
  · intro hlt hfar
    rw [hiff]
    rintro ⟨-, -, c, d⟩
    unfold subU64 toU64 at c d
    omega

/-- Witness for C18 (amended): on the ten-byte file a read-only handle at offset 2 seeks to
5: the discard read asks for 3 bytes, gets them, and `Seek` returns 0 at offset 5 with no
reposition call. -/
theorem Seek_discard_read_iff_witness :
    ((⟨2, true, false, false, 0⟩ : VSIUnixStdioHandle).Seek hostStdio
        (Env.start ⟨[48, 49, 50, 51, 52, 53, 54, 55, 56, 57], 2, false, true, false, false, true⟩)
        5 SEEK_SET).ret = 0 ∧
    issuedSince
      (Env.start ⟨[48, 49, 50, 51, 52, 53, 54, 55, 56, 57], 2, false, true, false, false, true⟩)
      ((⟨2, true, false, false, 0⟩ : VSIUnixStdioHandle).Seek hostStdio
        (Env.start ⟨[48, 49, 50, 51, 52, 53, 54, 55, 56, 57], 2, false, true, false, false, true⟩)
        5 SEEK_SET).e = [Call.fread 1 3] :=
  ⟨(((Seek_discard_read_iff hostStdio ⟨2, true, false, false, 0⟩
      (Env.start ⟨[48, 49, 50, 51, 52, 53, 54, 55, 56, 57], 2, false, true, false, false, true⟩)
      5 SEEK_SET (by decide) (by decide)).2.1 (by decide)).2.1 (by decide)).1,
   by decide⟩

/-- C19: on a read-only handle, when the discard read of `Seek(t, SEEK_SET)` returns fewer
bytes than requested and the native reposition that follows succeeds, the bytes the
discard read consumed are not counted twice: the native position and the tracked offset
are both `t` afterwards (the reposition is absolute), and a following `Read` on the
readable stream returns the bytes of the file that start at offset `t`. -/
theorem fallback_after_short_discard_lands_on_target (h : VSIUnixStdioHandle) (e : Env Stream)
    (t nSize nCount : Nat) (hm : h.m_nOffset < 2 ^ 64) (ht : t < 2 ^ 64)
    (hg : discardGuard h t SEEK_SET)
    (hshort : (discardRead hostStdio h e t).val.1 < subU64 t h.m_nOffset)
    (hok : (h.Seek hostStdio e t SEEK_SET).ret = 0) :
    issuedSince e (h.Seek hostStdio e t SEEK_SET).e =
      [Call.fread 1 (subU64 t h.m_nOffset), Call.fseek t SEEK_SET] ∧
    (h.Seek hostStdio e t SEEK_SET).e.st.pos = t ∧
    (h.Seek hostStdio e t SEEK_SET).h.m_nOffset = t ∧
    (h.Seek hostStdio e t SEEK_SET).e.st.data = e.st.data ∧
    (e.st.canRead = true → 0 < nSize → 0 < nCount →
      ((h.Seek hostStdio e t SEEK_SET).h.Read hostStdio (h.Seek hostStdio e t SEEK_SET).e
        nSize nCount).ret.2 = (e.st.data.drop t).take (nSize * nCount)) := by
  obtain ⟨-, -, -, d4⟩ := discardRead_request hostStdio h e t SEEK_SET hm ht hg
  obtain ⟨-, -, c, d⟩ := (discardGuard_iff h t SEEK_SET hm ht).mp hg
  rw [d4] at hshort
  have h3 : toInt32 (e.fread hostStdio 1 (subU64 t h.m_nOffset)).val.1
      ≠ (subU64 t h.m_nOffset : Int) := by
    rw [toInt32_of_small (by omega) (by omega)]
    omega
  obtain ⟨hS, hi⟩ := (Seek_issued_of_guard hostStdio h e t SEEK_SET hm ht hg).2 h3
  rw [hS] at hok
  rw [SeekNative_ret] at hok
  have hv : (Stream.fseek (e.fread hostStdio 1 (subU64 t h.m_nOffset)).env.st
      (e.fread hostStdio 1 (subU64 t h.m_nOffset)).env.errno t SEEK_SET).val = 0 := hok
  have hst := Stream.fseek_set_ok _ _ t ht hv
  have hfr := Stream.fread_frame e.st e.errno 1 (subU64 t h.m_nOffset)
  have hpos : (h.Seek hostStdio e t SEEK_SET).e.st.pos = t := by
    rw [hS, host_SeekNative_st, hst]
  have hdata : (h.Seek hostStdio e t SEEK_SET).e.st.data = e.st.data := by
    rw [hS, host_SeekNative_st, hst]
    exact hfr.1
  have hcan : (h.Seek hostStdio e t SEEK_SET).e.st.canRead = e.st.canRead := by
    rw [hS, host_SeekNative_st, hst]
    exact hfr.2.1
  have hoff : (h.Seek hostStdio e t SEEK_SET).h.m_nOffset = t := by
    rw [hS]
    exact SeekNative_set_ok hostStdio _ _ t (by rw [hok]; decide)
  have hflag : (h.Seek hostStdio e t SEEK_SET).h.bLastOpWrite = false := by
    rw [hS]
    exact (SeekNative_flags hostStdio _ _ t SEEK_SET).1
  refine ⟨hi, hpos, hoff, hdata, ?_⟩
  intro hcr ha hb
  have hfl : flushingSeek hostStdio (h.Seek hostStdio e t SEEK_SET).h.bLastOpWrite
      (h.Seek hostStdio e t SEEK_SET).h (h.Seek hostStdio e t SEEK_SET).e
      = (h.Seek hostStdio e t SEEK_SET).e := by
    rw [hflag]; rfl
  rw [(host_Read_spec _ _ nSize nCount).1, hfl,
    Stream.fread_val _ nSize nCount ha hb (by rw [hcan]; exact hcr), hdata, hpos]

/-- Witness for C19: the tracked offset is 0 while the native position of the ten-byte
file is 8; `Seek(5, SEEK_SET)` asks the discard read for 5 bytes and gets 2, the
reposition succeeds, and the following `Read` returns the bytes from offset 5 on. -/
theorem fallback_after_short_discard_lands_on_target_witness :
    ((⟨0, true, false, false, 0⟩ : VSIUnixStdioHandle).Seek hostStdio
        (Env.start ⟨[48, 49, 50, 51, 52, 53, 54, 55, 56, 57], 8, false, true, false, false, true⟩)
        5 SEEK_SET).e.st.pos = 5 ∧
    (((⟨0, true, false, false, 0⟩ : VSIUnixStdioHandle).Seek hostStdio
        (Env.start ⟨[48, 49, 50, 51, 52, 53, 54, 55, 56, 57], 8, false, true, false, false, true⟩)
        5 SEEK_SET).h.Read hostStdio
      ((⟨0, true, false, false, 0⟩ : VSIUnixStdioHandle).Seek hostStdio
        (Env.start ⟨[48, 49, 50, 51, 52, 53, 54, 55, 56, 57], 8, false, true, false, false, true⟩)
        5 SEEK_SET).e 1 3).ret.2 = [53, 54, 55] :=
  ⟨(fallback_after_short_discard_lands_on_target ⟨0, true, false, false, 0⟩
      (Env.start ⟨[48, 49, 50, 51, 52, 53, 54, 55, 56, 57], 8, false, true, false, false, true⟩)
      5 1 3 (by decide) (by decide) (by decide) (by decide) (by decide)).2.1,
   ((fallback_after_short_discard_lands_on_target ⟨0, true, false, false, 0⟩
      (Env.start ⟨[48, 49, 50, 51, 52, 53, 54, 55, 56, 57], 8, false, true, false, false, true⟩)
      5 1 3 (by decide) (by decide) (by decide) (by decide) (by decide)).2.2.2.2
        (by decide) (by decide) (by decide)).trans (by decide)⟩

/-- C20: `Read` issues the native seek to (`m_nOffset`, `SEEK_SET`) before the native read
exactly when `bLastOpWrite` is set on entry; whatever that seek returns, the native read
follows it and `Read` returns the element count of that native read. -/
theorem Read_flushing_seek_iff {σ : Type} (N : Native σ) (h : VSIUnixStdioHandle) (e : Env σ)
    (nSize nCount : Nat) :
    ((∃ (o : Nat) (w : Int), Call.fseek o w ∈ issuedSince e (h.Read N e nSize nCount).e) ↔
      h.bLastOpWrite = true) ∧
    issuedSince e (h.Read N e nSize nCount).e =
      (if h.bLastOpWrite = true then [Call.fseek h.m_nOffset SEEK_SET] else []) ++
        [Call.fread nSize nCount] ++
        (if ((flushingSeek N h.bLastOpWrite h e).fread N nSize nCount).val.1 ≠ nCount then
          [Call.ftell, Call.feof] else []) ∧
    (h.bLastOpWrite = true →
      (h.Read N e nSize nCount).ret.1 =
        ((if (e.fseek N h.m_nOffset SEEK_SET).val ≠ 0 then
            (e.fseek N h.m_nOffset SEEK_SET).env.vsiDebug N
          else (e.fseek N h.m_nOffset SEEK_SET).env).fread N nSize nCount).val.1) ∧
    (h.bLastOpWrite = false →
      (h.Read N e nSize nCount).ret.1 = (e.fread N nSize nCount).val.1) := by
  have hi : issuedSince e (h.Read N e nSize nCount).e =
      (if h.bLastOpWrite = true then [Call.fseek h.m_nOffset SEEK_SET] else []) ++
        [Call.fread nSize nCount] ++
        (if ((flushingSeek N h.bLastOpWrite h e).fread N nSize nCount).val.1 ≠ nCount then
          [Call.ftell, Call.feof] else []) := by
    apply issuedSince_append
    rw [Read_trace]
    simp only [List.append_assoc]
  have hret : (h.Read N e nSize nCount).ret.1 =
      ((flushingSeek N h.bLastOpWrite h e).fread N nSize nCount).val.1 := by
    unfold Read
    simp only
    split_ifs <;> rfl
  refine ⟨?_, hi, ?_, ?_⟩
  · rw [hi]
    constructor
    · rintro ⟨o, w, hmem⟩
      by_contra hb
      rw [if_neg hb] at hmem
      split_ifs at hmem <;> simp at hmem
    · intro hb
      refine ⟨h.m_nOffset, SEEK_SET, ?_⟩
      rw [if_pos hb]
      simp
  · intro hb
    rw [hret, hb]
    rfl
  · intro hb
    rw [hret, hb]
    rfl

/-- Witness for C20: after a write, on a pipe, the seek `Read` inserts fails, and `Read`
still reads two bytes and returns 2. -/
theorem Read_flushing_seek_iff_witness :
    ((Env.start (⟨[7, 8, 9], 0, false, true, true, false, false⟩ : Stream)).fseek hostStdio
      0 SEEK_SET).val = -1 ∧
    ((⟨0, false, true, false, 0⟩ : VSIUnixStdioHandle).Read hostStdio
      (Env.start ⟨[7, 8, 9], 0, false, true, true, false, false⟩) 1 2).ret.1 = 2 ∧
    issuedSince (Env.start ⟨[7, 8, 9], 0, false, true, true, false, false⟩)
      ((⟨0, false, true, false, 0⟩ : VSIUnixStdioHandle).Read hostStdio
        (Env.start ⟨[7, 8, 9], 0, false, true, true, false, false⟩) 1 2).e
      = [Call.fseek 0 SEEK_SET, Call.fread 1 2] :=
  ⟨by decide,
   ((Read_flushing_seek_iff hostStdio ⟨0, false, true, false, 0⟩
      (Env.start ⟨[7, 8, 9], 0, false, true, true, false, false⟩) 1 2).2.2.1 rfl).trans
        (by decide),
   (Read_flushing_seek_iff hostStdio ⟨0, false, true, false, 0⟩
      (Env.start ⟨[7, 8, 9], 0, false, true, true, false, false⟩) 1 2).2.1.trans (by decide)⟩

/-- C21: a newly constructed handle has both flags clear, offset 0 and `bAtEOF` clear; and
in every state reached from it by any sequence of Seek/Tell/Read/Write/Eof/Flush/Truncate
calls, whatever the native calls do, `bLastOpWrite` and `bLastOpRead` are never both set,
so the pair is one of (clear, clear), (clear, set), (set, clear) and encodes exactly one
of `None`, `Read`, `Write`. -/
theorem flags_never_both_set {σ : Type} (N : Native σ) (bReadOnlyIn : Bool) (e : Env σ)
    (ops : List Op) :
    ((VSIUnixStdioHandle.new bReadOnlyIn).bLastOpWrite = false ∧
      (VSIUnixStdioHandle.new bReadOnlyIn).bLastOpRead = false ∧
      (VSIUnixStdioHandle.new bReadOnlyIn).m_nOffset = 0 ∧
      (VSIUnixStdioHandle.new bReadOnlyIn).Tell = 0 ∧
      (VSIUnixStdioHandle.new bReadOnlyIn).bAtEOF = 0 ∧
      (VSIUnixStdioHandle.new bReadOnlyIn).Eof = 0 ∧
      (VSIUnixStdioHandle.new bReadOnlyIn).bReadOnly = bReadOnlyIn) ∧
    flagsExclusive (Sys.run N { h := VSIUnixStdioHandle.new bReadOnlyIn, e := e } ops).h ∧
    (((Sys.run N { h := VSIUnixStdioHandle.new bReadOnlyIn, e := e } ops).h.bLastOpWrite = false ∧
        (Sys.run N { h := VSIUnixStdioHandle.new bReadOnlyIn, e := e } ops).h.bLastOpRead = false) ∨
      ((Sys.run N { h := VSIUnixStdioHandle.new bReadOnlyIn, e := e } ops).h.bLastOpWrite = false ∧
        (Sys.run N { h := VSIUnixStdioHandle.new bReadOnlyIn, e := e } ops).h.bLastOpRead = true) ∨
      ((Sys.run N { h := VSIUnixStdioHandle.new bReadOnlyIn, e := e } ops).h.bLastOpWrite = true ∧
        (Sys.run N { h := VSIUnixStdioHandle.new bReadOnlyIn, e := e } ops).h.bLastOpRead = false)) ∧
    (lastOperation (Sys.run N { h := VSIUnixStdioHandle.new bReadOnlyIn, e := e } ops).h
        = LastOperation.Write ↔
      (Sys.run N { h := VSIUnixStdioHandle.new bReadOnlyIn, e := e } ops).h.bLastOpWrite = true) ∧
    (lastOperation (Sys.run N { h := VSIUnixStdioHandle.new bReadOnlyIn, e := e } ops).h
        = LastOperation.Read ↔
      (Sys.run N { h := VSIUnixStdioHandle.new bReadOnlyIn, e := e } ops).h.bLastOpRead = true) := by
  have hinv := flagsExclusive_run N ops { h := VSIUnixStdioHandle.new bReadOnlyIn, e := e }
    (by unfold flagsExclusive; simp [VSIUnixStdioHandle.new])
  refine ⟨⟨rfl, rfl, rfl, rfl, rfl, rfl, rfl⟩, hinv, ?_, ?_, ?_⟩
  all_goals
    generalize (Sys.run N { h := VSIUnixStdioHandle.new bReadOnlyIn, e := e } ops).h = h1 at hinv ⊢
    unfold flagsExclusive at hinv
    try unfold lastOperation
    cases hw : h1.bLastOpWrite <;> cases hr : h1.bLastOpRead <;> simp_all

/-- C22: the fast path of `Seek` (`SEEK_SET` to the tracked offset) changes nothing but
`bAtEOF`: the environment and the `lastOperation` flags are as before. Hence, for every
handle and whatever the native calls do, after `Write`, `Seek(Tell(), SEEK_SET)`, the
`Read` that follows first issues the native reposition call and then the native read;
and after `Read`, `Seek(Tell(), SEEK_SET)`, the `Write` that follows first issues the
native reposition call and then the native write. -/
theorem Seek_fast_path_keeps_lastOperation {σ : Type} (N : Native σ) (h : VSIUnixStdioHandle)
    (e : Env σ) (pBuffer : List Byte) (nSize nCount nSize2 nCount2 : Nat) :
    ((h.Seek N e h.Tell SEEK_SET).h = { h with bAtEOF := 0 } ∧
      (h.Seek N e h.Tell SEEK_SET).e = e ∧
      lastOperation (h.Seek N e h.Tell SEEK_SET).h = lastOperation h) ∧
    (((h.Write N e pBuffer nSize nCount).h.Seek N (h.Write N e pBuffer nSize nCount).e
        (h.Write N e pBuffer nSize nCount).h.Tell SEEK_SET).e
          = (h.Write N e pBuffer nSize nCount).e ∧
      ∃ tail : List Call,
        issuedSince (h.Write N e pBuffer nSize nCount).e
          (((h.Write N e pBuffer nSize nCount).h.Seek N (h.Write N e pBuffer nSize nCount).e
              (h.Write N e pBuffer nSize nCount).h.Tell SEEK_SET).h.Read N
            ((h.Write N e pBuffer nSize nCount).h.Seek N (h.Write N e pBuffer nSize nCount).e
              (h.Write N e pBuffer nSize nCount).h.Tell SEEK_SET).e nSize2 nCount2).e
          = Call.fseek (h.Write N e pBuffer nSize nCount).h.Tell SEEK_SET ::
              Call.fread nSize2 nCount2 :: tail) ∧
    (((h.Read N e nSize2 nCount2).h.Seek N (h.Read N e nSize2 nCount2).e
        (h.Read N e nSize2 nCount2).h.Tell SEEK_SET).e = (h.Read N e nSize2 nCount2).e ∧
      issuedSince (h.Read N e nSize2 nCount2).e
        (((h.Read N e nSize2 nCount2).h.Seek N (h.Read N e nSize2 nCount2).e
            (h.Read N e nSize2 nCount2).h.Tell SEEK_SET).h.Write N
          ((h.Read N e nSize2 nCount2).h.Seek N (h.Read N e nSize2 nCount2).e
            (h.Read N e nSize2 nCount2).h.Tell SEEK_SET).e pBuffer nSize nCount).e
        = [Call.fseek (h.Read N e nSize2 nCount2).h.Tell SEEK_SET,
            Call.fwrite nSize nCount]) := by
  have hfast : ∀ (h1 : VSIUnixStdioHandle) (e1 : Env σ),
      h1.Seek N e1 h1.Tell SEEK_SET = { ret := 0, h := afterClearEof h1, e := e1 } :=
    fun h1 e1 => Seek_fast N h1 e1 h1.Tell SEEK_SET rfl rfl
  refine ⟨?_, ?_, ?_⟩
  · rw [hfast]
    exact ⟨rfl, rfl, rfl⟩
  · rw [hfast]
    refine ⟨rfl, ?_⟩
    have hw : (afterClearEof (h.Write N e pBuffer nSize nCount).h).bLastOpWrite = true := rfl
    refine ⟨if ((flushingSeek N (afterClearEof (h.Write N e pBuffer nSize nCount).h).bLastOpWrite
        (afterClearEof (h.Write N e pBuffer nSize nCount).h)
        (h.Write N e pBuffer nSize nCount).e).fread N nSize2 nCount2).val.1 ≠ nCount2
      then [Call.ftell, Call.feof] else [], ?_⟩
    apply issuedSince_append
    rw [Read_trace, if_pos hw, List.append_assoc, List.append_assoc]
    rfl
  · rw [hfast]
    refine ⟨rfl, ?_⟩
    have hr : (afterClearEof (h.Read N e nSize2 nCount2).h).bLastOpRead = true :=
      (Read_flags N h e nSize2 nCount2).1
    apply issuedSince_append
    rw [Write_trace, if_pos hr, List.append_assoc]
    rfl

end VSI
